import Mathlib

/-
Verification of the FCH-Toolkit backend (Rust sources under src-tauri/src)
against its natural-language specification.

The embedding models strings as `List Char` (SQLite TEXT values compare with
the BINARY collation, i.e. byte order; our log data is ASCII so code-point
order coincides).  Timestamps in the log's native `YYYY.MM.DD HH:MM:SS`
format are modelled by the `Ts` structure together with a strict
parser/printer pair; calendar arithmetic mirrors the behaviour of the
`chrono` crate (proleptic Gregorian calendar) used by the sources.
-/

namespace FCH

/-- Strict lexicographic (byte/code-point) order on character lists.  Models
SQLite's BINARY collation used for every TEXT comparison in the sources. -/
def strLt : List Char → List Char → Bool
  | [], [] => false
  | [], _ :: _ => true
  | _ :: _, [] => false
  | a :: as, b :: bs =>
      a.toNat < b.toNat || (a.toNat == b.toNat && strLt as bs)

/-- Reflexive lexicographic order on character lists (SQLite `<=` on TEXT). -/
def strLe : List Char → List Char → Bool
  | [], _ => true
  | _ :: _, [] => false
  | a :: as, b :: bs =>
      a.toNat < b.toNat || (a.toNat == b.toNat && strLe as bs)

/-- Whitespace predicate backing Rust's `str::trim` on the characters that can
occur in VRChat log lines (ASCII whitespace). -/
def isWs (c : Char) : Bool := c == ' ' || c == '\t' || c == '\n' || c == '\r'

/-- Left trim, as done by Rust's `str::trim_start`. -/
def trimLeft (l : List Char) : List Char := l.dropWhile isWs

/-- Right trim, as done by Rust's `str::trim_end`. -/
def trimRight (l : List Char) : List Char := (l.reverse.dropWhile isWs).reverse

/-- Model of Rust's `str::trim`. -/
def rustTrim (l : List Char) : List Char := trimRight (trimLeft l)

/-- Decides whether the first list is a prefix of the second (Rust
`str::starts_with` / `strip_prefix` test). -/
def isPrefOf : List Char → List Char → Bool
  | [], _ => true
  | _ :: _, [] => false
  | a :: as, b :: bs => a == b && isPrefOf as bs

/-- Model of Rust's `str::strip_prefix`. -/
def stripPref (p l : List Char) : Option (List Char) :=
  if isPrefOf p l then some (l.drop p.length) else none

/-- First index at which `pat` occurs as a contiguous substring (Rust
`str::find` with a literal pattern). -/
def findSub (pat : List Char) : List Char → Option Nat
  | [] => if isPrefOf pat [] then some 0 else none
  | c :: t =>
      if isPrefOf pat (c :: t) then some 0
      else (findSub pat (c :: t).tail).map (fun n => n + 1)

/-- Literal `"Avatar - "` prefix stripped by the avatar-name normalizer. -/
def avatarPref : List Char := "Avatar - ".data

/-- Literal `" - Asset bundle"` marker: everything from its first occurrence
onward is dropped by the avatar-name normalizer. -/
def assetSuffix : List Char := " - Asset bundle".data

/-- Prefix-stripping step of `normalize_avatar_name` (`core.strip_prefix(PREFIX)`). -/
def stripCore (trimmed : List Char) : List Char :=
  match stripPref avatarPref trimmed with
  | some rest => rest
  | none => trimmed

/-- Suffix-cutting step of `normalize_avatar_name` (`core.find(SUFFIX)` and
truncation at the first occurrence). -/
def cutSuffix (core0 : List Char) : List Char :=
  match findSub assetSuffix core0 with
  | some idx => core0.take idx
  | none => core0

/-- ASCII parenthesis rebalancing step of `normalize_avatar_name`. -/
def balanceAscii (candidate : List Char) : List Char :=
  if candidate.count ')' < candidate.count '(' then
    candidate ++ List.replicate (candidate.count '(' - candidate.count ')') ')'
  else candidate

/-- Full-width parenthesis rebalancing step of `normalize_avatar_name`. -/
def balanceFw (c1 : List Char) : List Char :=
  if c1.count '）' < c1.count '（' then
    c1 ++ List.replicate (c1.count '（' - c1.count '）') '）'
  else c1

/-- Embedding of `db.rs::normalize_avatar_name`: trim, strip the
`"Avatar - "` prefix, cut at the first `" - Asset bundle"`, trim again, then
append closing parentheses (ASCII, then full-width) until no parenthesis is
left unmatched by count. -/
def normalize_avatar_name (raw : List Char) : List Char :=
  let trimmed := rustTrim raw
  if trimmed = [] then []
  else
    let candidate := rustTrim (cutSuffix (stripCore trimmed))
    if candidate = [] then candidate
    else balanceFw (balanceAscii candidate)

theorem dropWhile_self_idem (p : α → Bool) (l : List α) :
    (l.dropWhile p).dropWhile p = l.dropWhile p := by
  induction l with
  | nil => rfl
  | cons a t ih =>
    by_cases h : p a
    · simpa [List.dropWhile_cons, h] using ih
    · simp [List.dropWhile_cons, h]

theorem dropWhile_eq_self_of_forall {p : α → Bool} {l : List α}
    (h : ∀ c ∈ l, p c = false) : List.dropWhile p l = l := by
  cases l with
  | nil => rfl
  | cons a t =>
    have := h a (List.mem_cons_self a t)
    simp [List.dropWhile_cons, this]

theorem dropWhile_prefix_self {p : α → Bool} {x v : List α}
    (h : List.dropWhile p (x ++ v) = x ++ v) : List.dropWhile p x = x := by
  cases x with
  | nil => rfl
  | cons a t =>
    rw [List.cons_append, List.dropWhile_cons] at h
    rw [List.dropWhile_cons]
    by_cases hpa : p a
    · exfalso
      rw [if_pos hpa] at h
      have hlen := (List.dropWhile_suffix (l := t ++ v) p).length_le
      rw [h] at hlen
      simp at hlen
    · rw [if_neg hpa]

theorem trimLeft_trimLeft (l : List Char) : trimLeft (trimLeft l) = trimLeft l :=
  dropWhile_self_idem isWs l

theorem trimRight_trimRight (l : List Char) :
    trimRight (trimRight l) = trimRight l := by
  unfold trimRight
  rw [List.reverse_reverse, dropWhile_self_idem]

theorem trimRight_decomp (l : List Char) : ∃ v, l = trimRight l ++ v := by
  obtain ⟨t, ht⟩ := List.dropWhile_suffix (l := l.reverse) isWs
  refine ⟨t.reverse, ?_⟩
  have h2 := congrArg List.reverse ht
  rw [List.reverse_append, List.reverse_reverse] at h2
  unfold trimRight
  exact h2.symm

theorem trimLeft_decomp (l : List Char) : ∃ u, l = u ++ trimLeft l := by
  obtain ⟨t, ht⟩ := List.dropWhile_suffix (l := l) isWs
  exact ⟨t, ht.symm⟩

theorem trimLeft_trimRight_of {l : List Char} (h : trimLeft l = l) :
    trimLeft (trimRight l) = trimRight l := by
  obtain ⟨v, hv⟩ := trimRight_decomp l
  have h2 : List.dropWhile isWs (trimRight l ++ v) = trimRight l ++ v := by
    rw [← hv]; exact h
  exact dropWhile_prefix_self h2

theorem rustTrim_fixed_left (l : List Char) :
    trimLeft (rustTrim l) = rustTrim l :=
  trimLeft_trimRight_of (trimLeft_trimLeft l)

theorem rustTrim_fixed_right (l : List Char) :
    trimRight (rustTrim l) = rustTrim l :=
  trimRight_trimRight (trimLeft l)

theorem rustTrim_decomp (l : List Char) : ∃ u v, l = u ++ rustTrim l ++ v := by
  obtain ⟨u, hu⟩ := trimLeft_decomp l
  obtain ⟨v, hv⟩ := trimRight_decomp (trimLeft l)
  refine ⟨u, v, ?_⟩
  rw [List.append_assoc]
  show l = u ++ (trimRight (trimLeft l) ++ v)
  rw [← hv]
  exact hu

theorem trimLeft_append_of {x : List Char} (h : trimLeft x = x) (hx : x ≠ [])
    (reps : List Char) : trimLeft (x ++ reps) = x ++ reps := by
  unfold trimLeft at h ⊢
  rw [List.dropWhile_append, h]
  simp [List.isEmpty_iff, hx]

theorem trimRight_append_of {x reps : List Char} (h : trimRight x = x)
    (hreps : ∀ c ∈ reps, isWs c = false) :
    trimRight (x ++ reps) = x ++ reps := by
  cases reps with
  | nil => simpa using h
  | cons a t =>
    unfold trimRight
    rw [List.reverse_append, List.dropWhile_append,
      dropWhile_eq_self_of_forall (p := isWs) (l := (a :: t).reverse)
        (fun c hc => hreps c (List.mem_reverse.mp hc))]
    have hne : ((a :: t).reverse).isEmpty = false := by
      simp [List.isEmpty_iff]
    simp [hne]

theorem isPrefOf_iff_exists {p x : List Char} :
    isPrefOf p x = true ↔ ∃ r, x = p ++ r := by
  induction p generalizing x with
  | nil => simp [isPrefOf]
  | cons a ps ih =>
    cases x with
    | nil =>
      simp [isPrefOf]
    | cons b xs =>
      simp only [isPrefOf, Bool.and_eq_true, beq_iff_eq, ih, List.cons_append]
      constructor
      · rintro ⟨hab, r, hr⟩
        exact ⟨r, by rw [hab, hr]⟩
      · rintro ⟨r, hr⟩
        injection hr with h1 h2
        exact ⟨h1.symm, r, h2⟩

theorem isPrefOf_nil_eq {pat : List Char} (h : isPrefOf pat [] = true) :
    pat = [] := by
  cases pat with
  | nil => rfl
  | cons a t => simp [isPrefOf] at h

theorem findSub_eq_none_iff {pat l : List Char} :
    findSub pat l = none ↔ ∀ j, isPrefOf pat (l.drop j) = false := by
  induction l with
  | nil =>
    simp only [findSub]
    by_cases hp : isPrefOf pat ([] : List Char) = true
    · rw [if_pos hp]
      apply iff_of_false (by simp)
      intro hall
      have h0 := hall 0
      rw [List.drop_nil] at h0
      rw [h0] at hp
      cases hp
    · rw [if_neg hp]
      apply iff_of_true rfl
      intro j
      rw [List.drop_nil]
      simpa using hp
  | cons c t ih =>
    simp only [findSub, List.tail_cons]
    by_cases h0 : isPrefOf pat (c :: t) = true
    · rw [if_pos h0]
      apply iff_of_false (by simp)
      intro hall
      have h1 := hall 0
      rw [List.drop_zero] at h1
      rw [h1] at h0
      cases h0
    · rw [if_neg h0]
      constructor
      · intro h j
        cases j with
        | zero =>
          rw [List.drop_zero]
          simpa using h0
        | succ n =>
          rw [List.drop_succ_cons]
          have ht : findSub pat t = none := by
            cases hft : findSub pat t with
            | none => rfl
            | some m => rw [hft] at h; simp at h
          exact (ih.mp ht) n
      · intro hall
        have ht : findSub pat t = none :=
          ih.mpr (fun j => by
            have := hall (j + 1)
            rwa [List.drop_succ_cons] at this)
        rw [ht]
        rfl

theorem findSub_some_min {pat l : List Char} {i : Nat}
    (h : findSub pat l = some i) :
    ∀ j, j < i → isPrefOf pat (l.drop j) = false := by
  induction l generalizing i with
  | nil =>
    intro j hj
    simp only [findSub] at h
    by_cases hp : isPrefOf pat ([] : List Char) = true
    · rw [if_pos hp] at h
      injection h with h
      omega
    · rw [if_neg hp] at h
      cases h
  | cons c t ih =>
    intro j hj
    simp only [findSub, List.tail_cons] at h
    by_cases h0 : isPrefOf pat (c :: t) = true
    · rw [if_pos h0] at h
      injection h with h
      omega
    · rw [if_neg h0] at h
      cases hft : findSub pat t with
      | none => rw [hft] at h; cases h
      | some m =>
        rw [hft] at h
        simp at h
        cases j with
        | zero =>
          rw [List.drop_zero]
          simpa using h0
        | succ n =>
          rw [List.drop_succ_cons]
          exact ih hft n (by omega)

theorem isPrefOf_drop_take {pat l : List Char} {i j : Nat}
    (h : isPrefOf pat ((l.take i).drop j) = true) :
    isPrefOf pat (l.drop j) = true := by
  rcases isPrefOf_iff_exists.mp h with ⟨r, hr⟩
  rw [List.drop_take] at hr
  apply isPrefOf_iff_exists.mpr
  refine ⟨r ++ (l.drop j).drop (i - j), ?_⟩
  conv_lhs => rw [← List.take_append_drop (i - j) (l.drop j)]
  rw [hr, List.append_assoc]

theorem findSub_take_none {pat l : List Char} {i : Nat} (hpat : pat ≠ [])
    (h : findSub pat l = some i) : findSub pat (l.take i) = none := by
  apply findSub_eq_none_iff.mpr
  intro j
  by_cases hj : j < i
  · cases hocc : isPrefOf pat ((l.take i).drop j) with
    | false => rfl
    | true =>
      have h2 := isPrefOf_drop_take hocc
      rw [findSub_some_min h j hj] at h2
      cases h2
  · have hle : (l.take i).length ≤ j :=
      le_trans (List.length_take_le i l) (by omega)
    rw [List.drop_eq_nil_of_le hle]
    cases hpe : isPrefOf pat [] with
    | false => rfl
    | true => exact absurd (isPrefOf_nil_eq hpe) hpat

theorem findSub_none_of_infixPart {pat y u x v : List Char} (hpat : pat ≠ [])
    (hy : y = u ++ x ++ v) (hnone : findSub pat y = none) :
    findSub pat x = none := by
  apply findSub_eq_none_iff.mpr
  intro j
  cases hocc : isPrefOf pat (x.drop j) with
  | false => rfl
  | true =>
    exfalso
    rcases isPrefOf_iff_exists.mp hocc with ⟨r, hr⟩
    have hjlt : j < x.length := by
      by_contra hge
      rw [List.drop_eq_nil_of_le (by omega)] at hr
      cases pat with
      | nil => exact hpat rfl
      | cons a t => simp at hr
    have hx : y.drop (u.length + j) = x.drop j ++ v := by
      rw [hy, List.append_assoc, List.drop_append,
        List.drop_append_of_le_length (le_of_lt hjlt)]
    have hocc2 : isPrefOf pat (y.drop (u.length + j)) = true := by
      rw [hx, hr, List.append_assoc]
      exact isPrefOf_iff_exists.mpr ⟨r ++ v, rfl⟩
    rw [findSub_eq_none_iff.mp hnone (u.length + j)] at hocc2
    cases hocc2

theorem findSub_append_disjoint {pat x reps : List Char} (hpat : pat ≠ [])
    (hx : findSub pat x = none) (hdisj : ∀ c ∈ reps, c ∉ pat) :
    findSub pat (x ++ reps) = none := by
  apply findSub_eq_none_iff.mpr
  intro j
  cases hocc : isPrefOf pat ((x ++ reps).drop j) with
  | false => rfl
  | true =>
    exfalso
    rcases isPrefOf_iff_exists.mp hocc with ⟨r, hr⟩
    by_cases hj : j ≤ x.length
    · rw [List.drop_append_of_le_length hj] at hr
      by_cases hlen : pat.length ≤ (x.drop j).length
      · have h1 : (x.drop j).take pat.length = pat := by
          have h2 := congrArg (List.take pat.length) hr
          rwa [List.take_append_of_le_length hlen,
            List.take_left' rfl] at h2
        have hocc3 : isPrefOf pat (x.drop j) = true := by
          apply isPrefOf_iff_exists.mpr
          refine ⟨(x.drop j).drop pat.length, ?_⟩
          conv_lhs => rw [← List.take_append_drop pat.length (x.drop j)]
          rw [h1]
        rw [findSub_eq_none_iff.mp hx j] at hocc3
        cases hocc3
      · push_neg at hlen
        have h2 := congrArg (List.drop (x.drop j).length) hr
        rw [List.drop_left, List.drop_append_of_le_length (le_of_lt hlen)] at h2
        have hne : pat.drop (x.drop j).length ≠ [] := by
          intro hnil
          have h3 := congrArg List.length hnil
          simp only [List.length_drop, List.length_nil] at h3 hlen
          omega
        obtain ⟨a, ta, hta⟩ := List.exists_cons_of_ne_nil hne
        have hamem : a ∈ pat :=
          List.mem_of_mem_drop (by rw [hta]; exact List.mem_cons_self a ta)
        have hareps : a ∈ reps := by
          rw [h2, hta]
          simp
        exact hdisj a hareps hamem
    · push_neg at hj
      have hdrop : (x ++ reps).drop j = reps.drop (j - x.length) := by
        conv_lhs => rw [show j = x.length + (j - x.length) by omega]
        rw [List.drop_append]
      rw [hdrop] at hr
      cases pat with
      | nil => exact hpat rfl
      | cons a t =>
        have hamem : a ∈ reps :=
          List.mem_of_mem_drop (n := j - x.length) (by rw [hr]; simp)
        exact hdisj a hamem (List.mem_cons_self a t)

theorem balanceAscii_balanced (x : List Char) :
    (balanceAscii x).count '(' ≤ (balanceAscii x).count ')' := by
  unfold balanceAscii
  by_cases h : x.count ')' < x.count '('
  · rw [if_pos h, List.count_append, List.count_append,
      List.count_replicate, List.count_replicate,
      if_neg (by decide), if_pos (by decide)]
    omega
  · rw [if_neg h]
    omega

theorem balanceFw_count_ascii (x : List Char) (c : Char)
    (hc : (('）' : Char) == c) = false) :
    (balanceFw x).count c = x.count c := by
  unfold balanceFw
  by_cases h : x.count '）' < x.count '（'
  · rw [if_pos h, List.count_append, List.count_replicate,
      if_neg (by simp [hc])]
    omega
  · rw [if_neg h]

theorem rustTrim_fixed_append (y reps : List Char) (hy : rustTrim y ≠ [])
    (hreps : ∀ c ∈ reps, isWs c = false) :
    rustTrim (rustTrim y ++ reps) = rustTrim y ++ reps := by
  have h1 : trimLeft (rustTrim y ++ reps) = rustTrim y ++ reps :=
    trimLeft_append_of (rustTrim_fixed_left y) hy reps
  show trimRight (trimLeft (rustTrim y ++ reps)) = rustTrim y ++ reps
  rw [h1]
  exact trimRight_append_of (rustTrim_fixed_right y) hreps

theorem balanceFw_balanced (x : List Char) :
    (balanceFw x).count '（' ≤ (balanceFw x).count '）' := by
  unfold balanceFw
  by_cases h : x.count '）' < x.count '（'
  · rw [if_pos h, List.count_append, List.count_append,
      List.count_replicate, List.count_replicate,
      if_neg (by decide), if_pos (by decide)]
    omega
  · rw [if_neg h]
    omega

theorem balanceAscii_decomp (x : List Char) :
    ∃ reps, balanceAscii x = x ++ reps ∧ ∀ c ∈ reps, c = ')' := by
  unfold balanceAscii
  by_cases h : x.count ')' < x.count '('
  · rw [if_pos h]
    exact ⟨_, rfl, fun c hc => List.eq_of_mem_replicate hc⟩
  · rw [if_neg h]
    exact ⟨[], by simp, by simp⟩

theorem balanceFw_decomp (x : List Char) :
    ∃ reps, balanceFw x = x ++ reps ∧ ∀ c ∈ reps, c = '）' := by
  unfold balanceFw
  by_cases h : x.count '）' < x.count '（'
  · rw [if_pos h]
    exact ⟨_, rfl, fun c hc => List.eq_of_mem_replicate hc⟩
  · rw [if_neg h]
    exact ⟨[], by simp, by simp⟩

theorem balance_decomp (x : List Char) :
    ∃ reps, balanceFw (balanceAscii x) = x ++ reps ∧
      ∀ c ∈ reps, c = ')' ∨ c = '）' := by
  obtain ⟨r1, h1, m1⟩ := balanceAscii_decomp x
  obtain ⟨r2, h2, m2⟩ := balanceFw_decomp (balanceAscii x)
  refine ⟨r1 ++ r2, ?_, ?_⟩
  · rw [h2, h1, List.append_assoc]
  · intro c hc
    rcases List.mem_append.mp hc with h | h
    · exact Or.inl (m1 c h)
    · exact Or.inr (m2 c h)

theorem cutSuffix_none (y : List Char) :
    findSub assetSuffix (cutSuffix y) = none := by
  unfold cutSuffix
  cases h : findSub assetSuffix y with
  | none => simp [h]
  | some i => simp only [h]; exact findSub_take_none (by decide) h

theorem normalize_shape (s : List Char) (h0 : normalize_avatar_name s ≠ []) :
    rustTrim (cutSuffix (stripCore (rustTrim s))) ≠ [] ∧
    normalize_avatar_name s =
      balanceFw (balanceAscii (rustTrim (cutSuffix (stripCore (rustTrim s))))) := by
  simp only [normalize_avatar_name] at h0 ⊢
  by_cases h1 : rustTrim s = []
  · rw [if_pos h1] at h0
    exact absurd rfl h0
  · rw [if_neg h1] at h0 ⊢
    by_cases h2 : rustTrim (cutSuffix (stripCore (rustTrim s))) = []
    · rw [if_pos h2] at h0
      exact absurd h2 h0
    · rw [if_neg h2]
      exact ⟨h2, rfl⟩

theorem normalize_facts (s : List Char) :
    rustTrim (normalize_avatar_name s) = normalize_avatar_name s ∧
    findSub assetSuffix (normalize_avatar_name s) = none ∧
    (normalize_avatar_name s).count '(' ≤ (normalize_avatar_name s).count ')' ∧
    (normalize_avatar_name s).count '（' ≤ (normalize_avatar_name s).count '）' := by
  by_cases h0 : normalize_avatar_name s = []
  · rw [h0]
    exact ⟨rfl, by decide, by simp, by simp⟩
  · obtain ⟨h2, hsh⟩ := normalize_shape s h0
    obtain ⟨reps, hdec, hmem⟩ :=
      balance_decomp (rustTrim (cutSuffix (stripCore (rustTrim s))))
    have hrepsws : ∀ c ∈ reps, isWs c = false := by
      intro c hc
      rcases hmem c hc with h | h <;> rw [h] <;> decide
    refine ⟨?_, ?_, ?_, ?_⟩
    · rw [hsh, hdec]
      exact rustTrim_fixed_append _ reps h2 hrepsws
    · rw [hsh, hdec]
      apply findSub_append_disjoint (by decide)
      · obtain ⟨u, v, huv⟩ := rustTrim_decomp (cutSuffix (stripCore (rustTrim s)))
        exact findSub_none_of_infixPart (by decide) huv
          (cutSuffix_none (stripCore (rustTrim s)))
      · intro c hc
        rcases hmem c hc with h | h <;> rw [h] <;> decide
    · rw [hsh]
      rw [balanceFw_count_ascii _ '(' (by decide),
        balanceFw_count_ascii _ ')' (by decide)]
      exact balanceAscii_balanced _
    · rw [hsh]
      exact balanceFw_balanced _

theorem normalize_idem_of_not_pref (s : List Char)
    (hp : isPrefOf avatarPref (normalize_avatar_name s) = false) :
    normalize_avatar_name (normalize_avatar_name s) = normalize_avatar_name s := by
  by_cases h0 : normalize_avatar_name s = []
  · rw [h0]
    decide
  · obtain ⟨hrt, hfs, hc1, hc2⟩ := normalize_facts s
    set o := normalize_avatar_name s with ho
    show normalize_avatar_name o = o
    have hstrip : stripCore o = o := by
      unfold stripCore stripPref
      simp [hp]
    have hcut : cutSuffix o = o := by
      unfold cutSuffix
      simp [hfs]
    have hba : balanceAscii o = o := by
      unfold balanceAscii
      rw [if_neg (by omega)]
    have hbf : balanceFw o = o := by
      unfold balanceFw
      rw [if_neg (by omega)]
    simp only [normalize_avatar_name]
    rw [hrt, if_neg h0, hstrip, hcut, hrt, if_neg h0, hba, hbf]

/-- C6 counterexample: `normalize_avatar_name` is not idempotent.  On the
input `"Avatar - Avatar - X"` one application strips a single `"Avatar - "`
prefix and yields `"Avatar - X"`, and a second application strips the prefix
again, yielding `"X"`. -/
theorem C6_counterexample :
    normalize_avatar_name "Avatar - Avatar - X".data = "Avatar - X".data ∧
    normalize_avatar_name (normalize_avatar_name "Avatar - Avatar - X".data) ≠
      normalize_avatar_name "Avatar - Avatar - X".data :=
  ⟨by decide, by decide⟩

/-- C6 (amended): `normalize_avatar_name` maps `"Avatar - X - Asset bundle …"`
to `"X"`, and in every normalized output the count of `'('` is at most the
count of `')'` (likewise for the full-width pair `'（'`/`'）'`).  Idempotence
holds for every input whose normalized form does not itself start with the
`"Avatar - "` prefix; the counterexample shows it fails otherwise. -/
theorem C6_amended :
    (∀ s : List Char,
        isPrefOf avatarPref (normalize_avatar_name s) = false →
        normalize_avatar_name (normalize_avatar_name s) = normalize_avatar_name s) ∧
    normalize_avatar_name "Avatar - Phybogen - Asset bundle - 2019".data =
      "Phybogen".data ∧
    (∀ s : List Char,
        (normalize_avatar_name s).count '(' ≤ (normalize_avatar_name s).count ')' ∧
        (normalize_avatar_name s).count '（' ≤ (normalize_avatar_name s).count '）') :=
  ⟨normalize_idem_of_not_pref, by decide,
    fun s => ⟨(normalize_facts s).2.2.1, (normalize_facts s).2.2.2⟩⟩

/-- Witness for the amended C6 theorem at a concrete input. -/
theorem C6_amended_witness :
    normalize_avatar_name
        (normalize_avatar_name "Avatar - Foo (Bar - Asset bundle xyz".data) =
      normalize_avatar_name "Avatar - Foo (Bar - Asset bundle xyz".data ∧
    (normalize_avatar_name "Avatar - Foo (Bar - Asset bundle xyz".data).count '(' ≤
      (normalize_avatar_name "Avatar - Foo (Bar - Asset bundle xyz".data).count ')' :=
  ⟨C6_amended.1 _ (by decide), (C6_amended.2.2 _).1⟩

/-- Timestamp in the log's native `YYYY.MM.DD HH:MM:SS` format, broken into
calendar fields.  Models the `chrono::NaiveDateTime` values the sources obtain
from `NaiveDateTime::parse_from_str(_, "%Y.%m.%d %H:%M:%S")`. -/
structure Ts where
  y : Nat
  mo : Nat
  d : Nat
  h : Nat
  mi : Nat
  s : Nat
deriving DecidableEq, Repr

/-- Gregorian leap-year test of the proleptic Gregorian calendar used by
chrono. -/
def isLeap (y : Nat) : Bool := (y % 4 == 0 && y % 100 != 0) || y % 400 == 0

/-- Extra day contributed by February in a leap year. -/
def leapBit (y : Nat) : Nat := if isLeap y then 1 else 0

/-- Number of days in month `m` of a year whose leap bit is `l`. -/
def dimL (l m : Nat) : Nat :=
  if m = 1 then 31 else if m = 2 then 28 + l else if m = 3 then 31
  else if m = 4 then 30 else if m = 5 then 31 else if m = 6 then 30
  else if m = 7 then 31 else if m = 8 then 31 else if m = 9 then 30
  else if m = 10 then 31 else if m = 11 then 30 else if m = 12 then 31 else 0

/-- Days in the months strictly before month `m` of a year with leap bit `l`. -/
def dbmL (l m : Nat) : Nat :=
  if m ≤ 1 then 0 else if m = 2 then 31 else if m = 3 then 59 + l
  else if m = 4 then 90 + l else if m = 5 then 120 + l
  else if m = 6 then 151 + l else if m = 7 then 181 + l
  else if m = 8 then 212 + l else if m = 9 then 243 + l
  else if m = 10 then 273 + l else if m = 11 then 304 + l
  else if m = 12 then 334 + l else 0

/-- Number of days in month `m` of year `y` (Gregorian). -/
def daysInMonth (y m : Nat) : Nat := dimL (leapBit y) m

/-- Days in the months of year `y` strictly before month `m`. -/
def daysBeforeMonth (y m : Nat) : Nat := dbmL (leapBit y) m

/-- Days in the years `1 … y-1` of the proleptic Gregorian calendar. -/
def daysBeforeYear (y : Nat) : Nat :=
  365 * (y - 1) + (y - 1) / 4 - (y - 1) / 100 + (y - 1) / 400

/-- Day index of a timestamp's date (days since 0001-01-01). -/
def toDays (t : Ts) : Nat :=
  daysBeforeYear t.y + daysBeforeMonth t.y t.mo + (t.d - 1)

/-- Seconds represented by a timestamp; chrono's
`signed_duration_since` on two parsed timestamps is the difference of their
`toSecs` values. -/
def toSecs (t : Ts) : Nat :=
  86400 * toDays t + 3600 * t.h + 60 * t.mi + t.s

/-- Field tuples accepted by chrono's validation when parsing the log format
(restricted to the four-digit CE years `1 … 9999` that the format can carry). -/
def validTs (t : Ts) : Prop :=
  1 ≤ t.y ∧ t.y ≤ 9999 ∧ 1 ≤ t.mo ∧ t.mo ≤ 12 ∧ 1 ≤ t.d ∧
    t.d ≤ daysInMonth t.y t.mo ∧ t.h ≤ 23 ∧ t.mi ≤ 59 ∧ t.s ≤ 59

instance (t : Ts) : Decidable (validTs t) := by
  unfold validTs
  infer_instance

/-- Decimal digit character for `k ≤ 9`. -/
def digitChar (k : Nat) : Char := Char.ofNat (48 + k)

/-- Two-digit zero-padded decimal print (`%02d`). -/
def pad2 (n : Nat) : List Char := [digitChar (n / 10 % 10), digitChar (n % 10)]

/-- Four-digit zero-padded decimal print (`%04d`). -/
def pad4 (n : Nat) : List Char :=
  [digitChar (n / 1000 % 10), digitChar (n / 100 % 10),
    digitChar (n / 10 % 10), digitChar (n % 10)]

/-- Print a timestamp in the `%Y.%m.%d %H:%M:%S` format (chrono `format`),
as done when the sources turn a parsed timestamp back into a string for the
SQL dedup window. -/
def printTs (t : Ts) : List Char :=
  pad4 t.y ++ ('.' :: (pad2 t.mo ++ ('.' :: (pad2 t.d ++ (' ' :: (pad2 t.h ++
    (':' :: (pad2 t.mi ++ (':' :: pad2 t.s)))))))))

/-- Numeric value of a decimal digit character, when it is one. -/
def digitVal (c : Char) : Option Nat :=
  if 48 ≤ c.toNat ∧ c.toNat ≤ 57 then some (c.toNat - 48) else none

/-- Strict parser for `%Y.%m.%d %H:%M:%S`, modelling chrono's
`NaiveDateTime::parse_from_str` on the timestamp strings the sources extract
with their timestamp regex: four year digits and two-digit
month/day/hour/minute/second with the literal separators, followed by
chrono's calendar validation.  Returns `none` on malformed or out-of-range
input. -/
def parseTs (l : List Char) : Option Ts :=
  match l with
  | [y1, y2, y3, y4, p1, m1, m2, p2, d1, d2, sp, h1, h2, c1, n1, n2, c2, s1, s2] =>
    match digitVal y1, digitVal y2, digitVal y3, digitVal y4, digitVal m1,
        digitVal m2, digitVal d1, digitVal d2, digitVal h1, digitVal h2,
        digitVal n1, digitVal n2, digitVal s1, digitVal s2 with
    | some a1, some a2, some a3, some a4, some b1, some b2, some e1, some e2,
      some f1, some f2, some g1, some g2, some k1, some k2 =>
        if p1 = '.' ∧ p2 = '.' ∧ sp = ' ' ∧ c1 = ':' ∧ c2 = ':' then
          let t : Ts :=
            ⟨1000 * a1 + 100 * a2 + 10 * a3 + a4, 10 * b1 + b2, 10 * e1 + e2,
              10 * f1 + f2, 10 * g1 + g2, 10 * k1 + k2⟩
          if validTs t then some t else none
        else none
    | _, _, _, _, _, _, _, _, _, _, _, _, _, _ => none
  | _ => none

/-- Subtract three seconds from a timestamp, borrowing across minute, hour,
day, month and year boundaries; models chrono's
`ts - Duration::seconds(3)` as computed for the dedup window start. -/
def sub3 (t : Ts) : Ts :=
  if 3 ≤ t.s then ⟨t.y, t.mo, t.d, t.h, t.mi, t.s - 3⟩
  else if 1 ≤ t.mi then ⟨t.y, t.mo, t.d, t.h, t.mi - 1, t.s + 57⟩
  else if 1 ≤ t.h then ⟨t.y, t.mo, t.d, t.h - 1, 59, t.s + 57⟩
  else if 2 ≤ t.d then ⟨t.y, t.mo, t.d - 1, 23, 59, t.s + 57⟩
  else if 2 ≤ t.mo then
    ⟨t.y, t.mo - 1, daysInMonth t.y (t.mo - 1), 23, 59, t.s + 57⟩
  else ⟨t.y - 1, 12, 31, 23, 59, t.s + 57⟩

theorem daysBeforeYear_succ (y : Nat) (h1 : 1 ≤ y) :
    daysBeforeYear (y + 1) = daysBeforeYear y + 365 + leapBit y := by
  unfold daysBeforeYear leapBit isLeap
  simp only [Nat.add_sub_cancel]
  by_cases m4 : y % 4 = 0
  · have e4 : y / 4 = (y - 1) / 4 + 1 := by omega
    by_cases m100 : y % 100 = 0
    · have e100 : y / 100 = (y - 1) / 100 + 1 := by omega
      by_cases m400 : y % 400 = 0
      · have e400 : y / 400 = (y - 1) / 400 + 1 := by omega
        rw [if_pos (by simp [m4, m100, m400]), e4, e100, e400]
        omega
      · have e400 : y / 400 = (y - 1) / 400 := by omega
        rw [if_neg (by simp [m4, m100, m400]), e4, e100, e400]
        omega
    · have e100 : y / 100 = (y - 1) / 100 := by omega
      have e400 : y / 400 = (y - 1) / 400 := by omega
      rw [if_pos (by simp [m4, m100]), e4, e100, e400]
      omega
  · have e4 : y / 4 = (y - 1) / 4 := by omega
    have e100 : y / 100 = (y - 1) / 100 := by omega
    have e400 : y / 400 = (y - 1) / 400 := by omega
    rw [if_neg (by simp [m4]; omega), e4, e100, e400]
    omega

theorem daysBeforeYear_mono {y q : Nat} (h : y ≤ q) :
    daysBeforeYear y ≤ daysBeforeYear q := by
  induction q with
  | zero =>
    have : y = 0 := by omega
    subst this
    exact le_refl _
  | succ n ih =>
    rcases Nat.lt_or_ge y (n + 1) with hlt | hge
    · have hyn : y ≤ n := by omega
      by_cases h1 : 1 ≤ n
      · have hstep := daysBeforeYear_succ n h1
        have := ih hyn
        omega
      · have hn : n = 0 := by omega
        subst hn
        have hy : y = 0 := by omega
        subst hy
        exact Nat.zero_le _
    · have : y = n + 1 := by omega
      subst this
      exact le_refl _

theorem daysBeforeYear_succ_le {y q : Nat} (h1 : 1 ≤ y) (h : y < q) :
    daysBeforeYear y + 365 + leapBit y ≤ daysBeforeYear q := by
  rw [← daysBeforeYear_succ y h1]
  exact daysBeforeYear_mono h

theorem leapBit_le (y : Nat) : leapBit y ≤ 1 := by
  unfold leapBit
  split <;> omega

theorem dimL_le_31 : ∀ l, l < 2 → ∀ m, m < 13 → dimL l m ≤ 31 := by decide

theorem dimL_pos : ∀ l, l < 2 → ∀ m, m < 13 → 1 ≤ m → 1 ≤ dimL l m := by decide

theorem dbmL_step : ∀ l, l < 2 → ∀ m, m < 12 → 1 ≤ m →
    dbmL l (m + 1) = dbmL l m + dimL l m := by decide

theorem dbmL_add_le : ∀ l, l < 2 → ∀ m, m < 13 → ∀ m2, m2 < 13 →
    1 ≤ m → m < m2 → dbmL l m + dimL l m ≤ dbmL l m2 := by decide

theorem dbmL_doy_lt : ∀ l, l < 2 → ∀ m, m < 13 → ∀ d, d < 32 →
    1 ≤ m → d ≤ dimL l m → dbmL l m + (d - 1) < 365 + l := by decide

theorem daysInMonth_le (y m : Nat) (h2 : m ≤ 12) : daysInMonth y m ≤ 31 := by
  have hl := leapBit_le y
  exact dimL_le_31 (leapBit y) (by omega) m (by omega)

theorem daysInMonth_pos (y m : Nat) (h1 : 1 ≤ m) (h2 : m ≤ 12) :
    1 ≤ daysInMonth y m := by
  have hl := leapBit_le y
  exact dimL_pos (leapBit y) (by omega) m (by omega) h1

theorem daysBeforeMonth_step (y m : Nat) (h1 : 1 ≤ m) (h2 : m ≤ 11) :
    daysBeforeMonth y (m + 1) = daysBeforeMonth y m + daysInMonth y m := by
  have hl := leapBit_le y
  exact dbmL_step (leapBit y) (by omega) m (by omega) h1

theorem daysBeforeMonth_add_le (y m m2 : Nat) (h1 : 1 ≤ m) (h2 : m < m2)
    (h3 : m2 ≤ 12) :
    daysBeforeMonth y m + daysInMonth y m ≤ daysBeforeMonth y m2 := by
  have hl := leapBit_le y
  exact dbmL_add_le (leapBit y) (by omega) m (by omega) m2 (by omega) h1 h2

theorem doy_lt (y m d : Nat) (h1 : 1 ≤ m) (h2 : m ≤ 12)
    (hd : d ≤ daysInMonth y m) :
    daysBeforeMonth y m + (d - 1) < 365 + leapBit y := by
  have hl := leapBit_le y
  have hdim : daysInMonth y m ≤ 31 := daysInMonth_le y m h2
  exact dbmL_doy_lt (leapBit y) (by omega) m (by omega) d (by omega) h1 hd

/-- Strict lexicographic order on timestamp field tuples. -/
def tsLex (a b : Ts) : Prop :=
  a.y < b.y ∨ (a.y = b.y ∧ (a.mo < b.mo ∨ (a.mo = b.mo ∧ (a.d < b.d ∨
    (a.d = b.d ∧ (a.h < b.h ∨ (a.h = b.h ∧ (a.mi < b.mi ∨
      (a.mi = b.mi ∧ a.s < b.s)))))))))

theorem tsLex_trichotomy (a b : Ts) : a = b ∨ tsLex a b ∨ tsLex b a := by
  obtain ⟨a1, a2, a3, a4, a5, a6⟩ := a
  obtain ⟨b1, b2, b3, b4, b5, b6⟩ := b
  simp only [tsLex, Ts.mk.injEq]
  omega

theorem toSecs_lt_of_lex {a b : Ts} (ha : validTs a) (hb : validTs b)
    (h : tsLex a b) : toSecs a < toSecs b := by
  obtain ⟨ay, amo, ad, ah, ami, as0⟩ := a
  obtain ⟨b1, bmo, bd, bh, bmi, bs0⟩ := b
  obtain ⟨ha1, ha2, ha3, ha4, ha5, ha6, ha7, ha8, ha9⟩ := ha
  obtain ⟨hb1, hb2, hb3, hb4, hb5, hb6, hb7, hb8, hb9⟩ := hb
  simp only [tsLex] at h
  simp only [toSecs, toDays] at *
  rcases h with hy | ⟨hye, h⟩
  · have hda : daysBeforeMonth ay amo + (ad - 1) < 365 + leapBit ay :=
      doy_lt ay amo ad ha3 ha4 ha6
    have hstep : daysBeforeYear ay + 365 + leapBit ay ≤ daysBeforeYear b1 :=
      daysBeforeYear_succ_le ha1 hy
    omega
  · subst hye
    rcases h with hm | ⟨hme, h⟩
    · have hml : daysBeforeMonth ay amo + daysInMonth ay amo ≤
          daysBeforeMonth ay bmo :=
        daysBeforeMonth_add_le ay amo bmo ha3 hm hb4
      omega
    · subst hme
      rcases h with hd | ⟨hde, h⟩
      · omega
      · subst hde
        omega

theorem char_eq_of_toNat {a b : Char} (h : a.toNat = b.toNat) : a = b := by
  rw [← Char.ofNat_toNat a, ← Char.ofNat_toNat b, h]

theorem strLe_cons_same (c : Char) (x y : List Char) :
    strLe (c :: x) (c :: y) = strLe x y := by
  simp [strLe]

theorem strLe_append_eq_len :
    ∀ {u v : List Char}, u.length = v.length → ∀ (x y : List Char),
    (strLe (u ++ x) (v ++ y) = true ↔
      (strLt u v = true ∨ (u = v ∧ strLe x y = true))) := by
  intro u
  induction u with
  | nil =>
    intro v hv x y
    have hvnil : v = [] := by
      cases v with
      | nil => rfl
      | cons b bs => simp at hv
    subst hvnil
    simp [strLt]
  | cons a u ih =>
    intro v hv x y
    cases v with
    | nil => simp at hv
    | cons b vs =>
      simp only [List.cons_append]
      simp only [strLe, strLt, Bool.or_eq_true, Bool.and_eq_true,
        decide_eq_true_eq, beq_iff_eq, List.cons.injEq]
      rw [ih (by simpa using hv) x y]
      constructor
      · rintro (h | ⟨he, h2 | ⟨huv, hxy⟩⟩)
        · exact Or.inl (Or.inl h)
        · exact Or.inl (Or.inr ⟨he, h2⟩)
        · exact Or.inr ⟨⟨char_eq_of_toNat he, huv⟩, hxy⟩
      · rintro ((h | ⟨he, h2⟩) | ⟨⟨hab, huv⟩, hxy⟩)
        · exact Or.inl h
        · exact Or.inr ⟨he, Or.inl h2⟩
        · subst hab
          exact Or.inr ⟨rfl, Or.inr ⟨huv, hxy⟩⟩

theorem digitChar_toNat : ∀ k, k < 10 → (digitChar k).toNat = 48 + k := by
  decide

theorem digitChar_inj : ∀ k, k < 10 → ∀ j, j < 10 →
    (digitChar k = digitChar j ↔ k = j) := by decide

theorem pad2_lt_iff {m n : Nat} (hm : m ≤ 99) (hn : n ≤ 99) :
    (strLt (pad2 m) (pad2 n) = true ↔ m < n) := by
  have d1 := digitChar_toNat (m / 10 % 10) (by omega)
  have d2 := digitChar_toNat (m % 10) (by omega)
  have d3 := digitChar_toNat (n / 10 % 10) (by omega)
  have d4 := digitChar_toNat (n % 10) (by omega)
  simp only [pad2, strLt, Bool.or_eq_true, Bool.and_eq_true,
    decide_eq_true_eq, beq_iff_eq, Bool.false_eq_true, and_false, or_false]
  rw [d1, d2, d3, d4]
  omega

theorem pad2_le_iff {m n : Nat} (hm : m ≤ 99) (hn : n ≤ 99) :
    (strLe (pad2 m) (pad2 n) = true ↔ m ≤ n) := by
  have d1 := digitChar_toNat (m / 10 % 10) (by omega)
  have d2 := digitChar_toNat (m % 10) (by omega)
  have d3 := digitChar_toNat (n / 10 % 10) (by omega)
  have d4 := digitChar_toNat (n % 10) (by omega)
  simp only [pad2, strLe, Bool.or_eq_true, Bool.and_eq_true,
    decide_eq_true_eq, beq_iff_eq, and_true, or_true]
  rw [d1, d2, d3, d4]
  omega

theorem pad2_eq_iff {m n : Nat} (hm : m ≤ 99) (hn : n ≤ 99) :
    (pad2 m = pad2 n ↔ m = n) := by
  simp only [pad2, List.cons.injEq, and_true]
  rw [digitChar_inj (m / 10 % 10) (by omega) (n / 10 % 10) (by omega),
    digitChar_inj (m % 10) (by omega) (n % 10) (by omega)]
  omega

theorem pad4_eq (n : Nat) : pad4 n = pad2 (n / 100) ++ pad2 (n % 100) := by
  simp only [pad4, pad2, List.cons_append, List.nil_append]
  have h1 : n / 100 / 10 % 10 = n / 1000 % 10 := by omega
  have h3 : n % 100 / 10 % 10 = n / 10 % 10 := by omega
  have h4 : n % 100 % 10 = n % 10 := by omega
  rw [h1, h3, h4]

theorem strLe_pad2_block {fa fb : Nat} (ha : fa ≤ 99) (hb : fb ≤ 99)
    (ra rb : List Char) :
    (strLe (pad2 fa ++ ra) (pad2 fb ++ rb) = true ↔
      (fa < fb ∨ (fa = fb ∧ strLe ra rb = true))) := by
  rw [strLe_append_eq_len (u := pad2 fa) (v := pad2 fb) rfl ra rb,
    pad2_lt_iff (by omega) (by omega),
    pad2_eq_iff (m := fa) (n := fb) (by omega) (by omega)]

theorem strLe_pad4_block {fa fb : Nat} (ha : fa ≤ 9999) (hb : fb ≤ 9999)
    (ra rb : List Char) :
    (strLe (pad4 fa ++ ra) (pad4 fb ++ rb) = true ↔
      (fa < fb ∨ (fa = fb ∧ strLe ra rb = true))) := by
  rw [pad4_eq fa, pad4_eq fb, List.append_assoc, List.append_assoc,
    strLe_pad2_block (show fa / 100 ≤ 99 by omega)
      (show fb / 100 ≤ 99 by omega),
    strLe_pad2_block (show fa % 100 ≤ 99 by omega)
      (show fb % 100 ≤ 99 by omega)]
  by_cases hP : strLe ra rb = true
  · simp only [hP, eq_self_iff_true, and_true]
    omega
  · simp only [hP, Bool.false_eq_true, and_false, or_false]
    omega

theorem printTs_le_iff_lex {a b : Ts} (ha : validTs a) (hb : validTs b) :
    (strLe (printTs a) (printTs b) = true ↔ (a = b ∨ tsLex a b)) := by
  obtain ⟨ay, amo, ad, ah, ami, as0⟩ := a
  obtain ⟨b1, bmo, bd, bh, bmi, bs0⟩ := b
  simp only [validTs] at ha hb
  obtain ⟨ha1, ha2, ha3, ha4, ha5, ha6, ha7, ha8, ha9⟩ := ha
  obtain ⟨hb1, hb2, hb3, hb4, hb5, hb6, hb7, hb8, hb9⟩ := hb
  have hadle : ad ≤ 31 := le_trans ha6 (daysInMonth_le ay amo ha4)
  have hbdle : bd ≤ 31 := le_trans hb6 (daysInMonth_le b1 bmo hb4)
  simp only [printTs]
  rw [strLe_pad4_block (show ay ≤ 9999 by omega) (show b1 ≤ 9999 by omega),
    strLe_cons_same,
    strLe_pad2_block (show amo ≤ 99 by omega) (show bmo ≤ 99 by omega),
    strLe_cons_same,
    strLe_pad2_block (show ad ≤ 99 by omega) (show bd ≤ 99 by omega),
    strLe_cons_same,
    strLe_pad2_block (show ah ≤ 99 by omega) (show bh ≤ 99 by omega),
    strLe_cons_same,
    strLe_pad2_block (show ami ≤ 99 by omega) (show bmi ≤ 99 by omega),
    strLe_cons_same,
    pad2_le_iff (m := as0) (n := bs0) (by omega) (by omega)]
  simp only [tsLex, Ts.mk.injEq]
  constructor
  · intro h
    omega
  · intro h
    omega

theorem strLe_printTs_iff {a b : Ts} (ha : validTs a) (hb : validTs b) :
    (strLe (printTs a) (printTs b) = true ↔ toSecs a ≤ toSecs b) := by
  rw [printTs_le_iff_lex ha hb]
  constructor
  · rintro (rfl | h)
    · exact le_refl _
    · exact le_of_lt (toSecs_lt_of_lex ha hb h)
  · intro hle
    rcases tsLex_trichotomy a b with h | h | h
    · exact Or.inl h
    · exact Or.inr h
    · exact absurd (toSecs_lt_of_lex hb ha h) (by omega)

theorem sub3_correct {t : Ts} (hv : validTs t) (h3 : 3 ≤ toSecs t) :
    toSecs (sub3 t) + 3 = toSecs t ∧ validTs (sub3 t) := by
  obtain ⟨ty, tmo, td, th, tmi, ts0⟩ := t
  simp only [validTs] at hv
  obtain ⟨h1, h2, h3m, h4, h5, h6, h7, h8, h9⟩ := hv
  by_cases c1 : 3 ≤ ts0
  · simp only [sub3]
    rw [if_pos c1]
    refine ⟨by simp only [toSecs, toDays]; omega, ?_⟩
    simp only [validTs]
    exact ⟨h1, h2, h3m, h4, h5, h6, h7, h8, by omega⟩
  · by_cases c2 : 1 ≤ tmi
    · simp only [sub3]
      rw [if_neg c1, if_pos c2]
      refine ⟨by simp only [toSecs, toDays]; omega, ?_⟩
      simp only [validTs]
      exact ⟨h1, h2, h3m, h4, h5, h6, h7, by omega, by omega⟩
    · by_cases c3 : 1 ≤ th
      · simp only [sub3]
        rw [if_neg c1, if_neg c2, if_pos c3]
        refine ⟨by simp only [toSecs, toDays]; omega, ?_⟩
        simp only [validTs]
        exact ⟨h1, h2, h3m, h4, h5, h6, by omega, by omega, by omega⟩
      · by_cases c4 : 2 ≤ td
        · simp only [sub3]
          rw [if_neg c1, if_neg c2, if_neg c3, if_pos c4]
          refine ⟨by simp only [toSecs, toDays]; omega, ?_⟩
          simp only [validTs]
          exact ⟨h1, h2, h3m, h4, by omega, by omega, by omega, by omega,
            by omega⟩
        · by_cases c5 : 2 ≤ tmo
          · simp only [sub3]
            rw [if_neg c1, if_neg c2, if_neg c3, if_neg c4, if_pos c5]
            have hstep :
                daysBeforeMonth ty tmo =
                  daysBeforeMonth ty (tmo - 1) + daysInMonth ty (tmo - 1) := by
              have hs := daysBeforeMonth_step ty (tmo - 1) (by omega)
                (by omega)
              rw [show tmo - 1 + 1 = tmo from by omega] at hs
              exact hs
            have hdimpos : 1 ≤ daysInMonth ty (tmo - 1) :=
              daysInMonth_pos ty (tmo - 1) (by omega) (by omega)
            refine ⟨by simp only [toSecs, toDays]; omega, ?_⟩
            simp only [validTs]
            exact ⟨h1, h2, by omega, by omega, hdimpos, le_refl _, by omega,
              by omega, by omega⟩
          · simp only [sub3]
            rw [if_neg c1, if_neg c2, if_neg c3, if_neg c4, if_neg c5]
            have htmo : tmo = 1 := by omega
            subst htmo
            have htd : td = 1 := by omega
            subst htd
            have e1 : daysBeforeMonth ty 1 = 0 := by
              simp [daysBeforeMonth, dbmL]
            have hy2 : 2 ≤ ty := by
              simp only [toSecs, toDays] at h3
              rw [e1] at h3
              have e0 : daysBeforeYear ty =
                  365 * (ty - 1) + (ty - 1) / 4 - (ty - 1) / 100 +
                    (ty - 1) / 400 := rfl
              omega
            have hstepy := daysBeforeYear_succ (ty - 1) (by omega)
            rw [show ty - 1 + 1 = ty from by omega] at hstepy
            have e2 : daysBeforeMonth (ty - 1) 12 = 334 + leapBit (ty - 1) := by
              simp [daysBeforeMonth, dbmL]
            have e3 : daysInMonth (ty - 1) 12 = 31 := by
              simp [daysInMonth, dimL]
            refine ⟨?_, ?_⟩
            · simp only [toSecs, toDays]
              rw [e1, e2]
              omega
            · simp only [validTs]
              refine ⟨by omega, by omega, by omega, by omega, by omega, ?_,
                by omega, by omega, by omega⟩
              rw [e3]

theorem digitVal_digitChar : ∀ k, k < 10 → digitVal (digitChar k) = some k := by
  decide

theorem parseTs_printTs {t : Ts} (hv : validTs t) :
    parseTs (printTs t) = some t := by
  obtain ⟨ty, tmo, td, th, tmi, ts0⟩ := t
  simp only [validTs] at hv
  obtain ⟨h1, h2, h3, h4, h5, h6, h7, h8, h9⟩ := hv
  have hdle : td ≤ 31 := le_trans h6 (daysInMonth_le ty tmo h4)
  have d01 := digitVal_digitChar (ty / 1000 % 10) (by omega)
  have d02 := digitVal_digitChar (ty / 100 % 10) (by omega)
  have d03 := digitVal_digitChar (ty / 10 % 10) (by omega)
  have d04 := digitVal_digitChar (ty % 10) (by omega)
  have d05 := digitVal_digitChar (tmo / 10 % 10) (by omega)
  have d06 := digitVal_digitChar (tmo % 10) (by omega)
  have d07 := digitVal_digitChar (td / 10 % 10) (by omega)
  have d08 := digitVal_digitChar (td % 10) (by omega)
  have d09 := digitVal_digitChar (th / 10 % 10) (by omega)
  have d10 := digitVal_digitChar (th % 10) (by omega)
  have d11 := digitVal_digitChar (tmi / 10 % 10) (by omega)
  have d12 := digitVal_digitChar (tmi % 10) (by omega)
  have d13 := digitVal_digitChar (ts0 / 10 % 10) (by omega)
  have d14 := digitVal_digitChar (ts0 % 10) (by omega)
  simp only [printTs, pad4, pad2, List.cons_append, List.nil_append, parseTs,
    d01, d02, d03, d04, d05, d06, d07, d08, d09, d10, d11, d12, d13, d14]
  rw [if_pos ⟨trivial, trivial, trivial, trivial, trivial⟩]
  have ey : 1000 * (ty / 1000 % 10) + 100 * (ty / 100 % 10) +
      10 * (ty / 10 % 10) + ty % 10 = ty := by omega
  have emo : 10 * (tmo / 10 % 10) + tmo % 10 = tmo := by omega
  have ed : 10 * (td / 10 % 10) + td % 10 = td := by omega
  have eh : 10 * (th / 10 % 10) + th % 10 = th := by omega
  have emi : 10 * (tmi / 10 % 10) + tmi % 10 = tmi := by omega
  have es : 10 * (ts0 / 10 % 10) + ts0 % 10 = ts0 := by omega
  rw [ey, emo, ed, eh, emi, es]
  rw [if_pos ?_]
  · simp only [validTs]
    exact ⟨h1, h2, h3, h4, h5, h6, h7, h8, h9⟩

/-- Literal `"N/A"`. -/
def naStr : List Char := "N/A".data

/-- Row of the `ban_logs` table (world_mod_logs.rs). -/
structure BanRow where
  id : Nat
  admin : List Char
  target : List Char
  reason : List Char
  timestamp : List Char
  action : List Char
  location : List Char
deriving DecidableEq, Repr

/-- The `ban_logs` database: rows in rowid (insertion) order plus the next
AUTOINCREMENT id. -/
structure BanDb where
  rows : List BanRow
  nextId : Nat
deriving DecidableEq, Repr

/-- Window-dedup predicate of `add_ban_log`: same target and reason, and
timestamp inside the inclusive string window `[lo, hi]` (the SQL
`timestamp >= ?3 AND timestamp <= ?4` under the BINARY collation). -/
def banMatchWindow (target reason lo hi : List Char) (r : BanRow) : Bool :=
  r.target == target && r.reason == reason &&
    strLe lo r.timestamp && strLe r.timestamp hi

/-- Minimum-timestamp row of a list (the row SQLite returns for
`ORDER BY timestamp ASC LIMIT 1`); the first listed row wins ties. -/
def minByTimestamp : List BanRow → Option BanRow
  | [] => none
  | r :: rs =>
    match minByTimestamp rs with
    | none => some r
    | some r2 => if strLt r2.timestamp r.timestamp then some r2 else some r

/-- Embedding of `world_mod_logs.rs::add_ban_log`.  When the timestamp
parses, a 3-second window `[ts - 3s, ts]` is searched for an existing row
with the same (target, reason); otherwise the fallback looks for an exact
(target, reason, timestamp) match.  A hit returns the existing id without
inserting; otherwise a new row is appended (empty location becomes "N/A").
The returned Bool records whether a row was inserted. -/
def add_ban_log (db : BanDb)
    (admin target reason timestamp action location : List Char) :
    BanDb × Nat × Bool :=
  let existing : Option BanRow :=
    match parseTs timestamp with
    | some ts =>
        minByTimestamp (db.rows.filter
          (banMatchWindow target reason (printTs (sub3 ts)) (printTs ts)))
    | none =>
        db.rows.find? (fun r =>
          r.target == target && r.reason == reason &&
            r.timestamp == timestamp)
  match existing with
  | some r => (db, r.id, false)
  | none =>
      let loc := if location = [] then naStr else location
      ({ rows := db.rows ++
          [⟨db.nextId, admin, target, reason, timestamp, action, loc⟩],
         nextId := db.nextId + 1 }, db.nextId, true)

/-- In-memory location state (log_parser.rs::LocationState). -/
structure LocationState where
  world_id : Option (List Char)
  instance_id : Option (List Char)
  room_name : Option (List Char)
  instance_joined_timestamp : Option (List Char)
deriving DecidableEq, Repr

/-- Embedding of `log_parser.rs::get_current_location_for_mod_log`. -/
def get_current_location_for_mod_log (st : LocationState) : List Char :=
  match st.world_id, st.instance_id with
  | some w, some i => w ++ ':' :: i
  | some w, none => w ++ ':' :: naStr
  | none, some i => naStr ++ ':' :: i
  | none, none => naStr

/-- The JOINING_WORLD_REGEX block of `log_parser.rs::parse_location_update`:
trim and nonempty-filter both captures; when either survives, overwrite the
surviving fields and set `instance_joined_timestamp` to the line's
timestamp. -/
def applyJoinCap (st : LocationState)
    (joinCap : Option (List Char × List Char)) (lineTs : List Char) :
    LocationState × Bool :=
  match joinCap with
  | some (g1, g2) =>
      let w := if rustTrim g1 = [] then none else some (rustTrim g1)
      let i := if rustTrim g2 = [] then none else some (rustTrim g2)
      if w.isSome || i.isSome then
        ({ world_id := if w.isSome then w else st.world_id,
           instance_id := if i.isSome then i else st.instance_id,
           room_name := st.room_name,
           instance_joined_timestamp := some lineTs }, true)
      else (st, false)
  | none => (st, false)

/-- The JOINING_ROOM_REGEX block of `log_parser.rs::parse_location_update`:
trim and nonempty-filter the room capture and overwrite `room_name` when it
survives. -/
def applyRoomCap (st : LocationState) (roomCap : Option (List Char))
    (up : Bool) : LocationState × Bool :=
  match roomCap with
  | some g =>
      let room := if rustTrim g = [] then none else some (rustTrim g)
      if room.isSome then ({ st with room_name := room }, true)
      else (st, up)
  | none => (st, up)

/-- Embedding of `log_parser.rs::parse_location_update`, taken at the level
of the regex captures: `joinCap` is `some (g1, g2)` when
JOINING_WORLD_REGEX matched with groups g1 (the `wrld_…` id) and g2 (the
instance token), `roomCap` the capture of JOINING_ROOM_REGEX, and `lineTs`
the timestamp extracted from the line (or the wall-clock fallback).  The
in-memory instance history is not modelled (no claim concerns it).  Returns
the new state and the `updated` flag. -/
def parse_location_update (st : LocationState)
    (joinCap : Option (List Char × List Char)) (roomCap : Option (List Char))
    (lineTs : List Char) : LocationState × Bool :=
  let p := applyJoinCap st joinCap lineTs
  applyRoomCap p.1 roomCap p.2

/-- Result of processing a moderation line with `parse_ban_event`:
the updated ban database, the Bool the function returns, and whether the
`ban_event` was emitted to the UI. -/
structure BanEventResult where
  db : BanDb
  matched : Bool
  emitted : Bool
deriving DecidableEq, Repr

/-- Embedding of `log_parser.rs::parse_ban_event`, at the level of the
captures `(admin, actionRaw, target, reason)` of MODERATION_EVENT_REGEX and
the extracted timestamp string.  A line within the 30-second guard window
after `instance_joined_timestamp` is dropped (no store, no emit); otherwise
the row is passed to `add_ban_log` with the current location and `ban_event`
is emitted unconditionally. -/
def parse_ban_event (st : LocationState) (db : BanDb)
    (admin actionRaw target reason timestamp : List Char) : BanEventResult :=
  let action :=
    if actionRaw = "warned".data then "warn".data else "ban".data
  let dropped : Bool :=
    match st.instance_joined_timestamp with
    | some joinTs =>
        match parseTs joinTs, parseTs timestamp with
        | some j, some b =>
            decide (0 ≤ (toSecs b : Int) - (toSecs j : Int) ∧
              (toSecs b : Int) - (toSecs j : Int) < 30)
        | _, _ => false
    | none => false
  if dropped then ⟨db, false, false⟩
  else
    let loc := get_current_location_for_mod_log st
    let res := add_ban_log db admin target reason timestamp action loc
    ⟨res.1, true, true⟩

/-- Row of the `join_log` table (db.rs schema: UNIQUE(user_id,
join_timestamp)). -/
structure JoinRow where
  id : Nat
  user_id : List Char
  username : Option (List Char)
  join_timestamp : List Char
  leave_timestamp : Option (List Char)
  is_system : Bool
  event_kind : Option (List Char)
  message : Option (List Char)
  world_id : Option (List Char)
  instance_id : Option (List Char)
  region : Option (List Char)
deriving DecidableEq, Repr

/-- The `join_log` table: rows in rowid (insertion) order plus the next
AUTOINCREMENT id. -/
structure JoinDb where
  rows : List JoinRow
  nextId : Nat
deriving DecidableEq, Repr

/-- `leave_timestamp IS NULL AND is_system = 0`: an open player row. -/
def openPlayer (r : JoinRow) : Bool :=
  r.leave_timestamp.isNone && !r.is_system

/-- Embedding of `db.rs::db_insert_join` (INSERT OR IGNORE under the
UNIQUE(user_id, join_timestamp) constraint; no-op on empty ts or user id).
The Bool is `changed > 0`, which also gates the `db_row_inserted`
emission. -/
def db_insert_join (db : JoinDb) (ts uid uname : List Char) : JoinDb × Bool :=
  if ts = [] ∨ uid = [] then (db, false)
  else if db.rows.any (fun r => r.user_id == uid && r.join_timestamp == ts) then
    (db, false)
  else
    ({ rows := db.rows ++ [⟨db.nextId, uid, some uname, ts, none, false,
        some "join".data, none, none, none, none⟩],
       nextId := db.nextId + 1 }, true)

/-- The row SQLite returns for `ORDER BY join_timestamp DESC LIMIT 1`:
maximal join_timestamp under the BINARY collation, first listed row on
ties. -/
def maxByJoinTs : List JoinRow → Option JoinRow
  | [] => none
  | r :: rs =>
    match maxByJoinTs rs with
    | none => some r
    | some r2 =>
        if strLt r.join_timestamp r2.join_timestamp then some r2 else some r

/-- Embedding of `db.rs::db_update_leave`: set leave_timestamp = ts on the
open row of `uid` with the latest join_timestamp, if any.  The Bool records
whether a row was updated (gating `db_row_updated`). -/
def db_update_leave (db : JoinDb) (ts uid : List Char) : JoinDb × Bool :=
  if ts = [] ∨ uid = [] then (db, false)
  else
    match maxByJoinTs (db.rows.filter
        (fun r => r.user_id == uid && openPlayer r)) with
    | none => (db, false)
    | some r0 =>
        ({ db with rows := db.rows.map (fun r =>
            if r.id = r0.id then { r with leave_timestamp := some ts }
            else r) }, true)

/-- Embedding of `db.rs::db_purge_all`: no-op on empty ts, otherwise set
leave_timestamp = ts on every row with leave_timestamp IS NULL and
is_system = 0.  The Bool records whether the `db_purged` event fires when
called with emit = true (i.e. the early return was not taken). -/
def db_purge_all (db : JoinDb) (ts : List Char) : JoinDb × Bool :=
  if ts = [] then (db, false)
  else
    ({ db with rows := db.rows.map (fun r =>
        if openPlayer r then { r with leave_timestamp := some ts } else r) },
     true)

/-- Embedding of `db.rs::db_insert_system_event`: plain INSERT of a system
row; under UNIQUE(user_id, join_timestamp) a second system row at the same
timestamp makes the INSERT fail, the error propagates and the emission is
skipped.  The Bool records whether the row was inserted (and hence whether
`db_row_inserted` fires when emit = true). -/
def db_insert_system_event (db : JoinDb) (ts kind : List Char)
    (msg w i rg : Option (List Char)) : JoinDb × Bool :=
  if ts = [] then (db, false)
  else if db.rows.any (fun r =>
      r.user_id == "system".data && r.join_timestamp == ts) then
    (db, false)
  else
    ({ rows := db.rows ++ [⟨db.nextId, "system".data, none, ts, none, true,
        some kind, msg, w, i, rg⟩],
       nextId := db.nextId + 1 }, true)

/-- Whether `dedupe_open_joins` closes row `r`: the row is open, its user
has more than one open row, and it is not the one with the latest
join_timestamp. -/
def dedupeCloses (db : JoinDb) (r : JoinRow) : Bool :=
  let opens := db.rows.filter (fun q => q.user_id == r.user_id && openPlayer q)
  openPlayer r && decide (1 < opens.length) &&
    (match maxByJoinTs opens with
     | some m => r.id != m.id
     | none => false)

/-- Embedding of `db.rs::dedupe_open_joins` with the timestamp it resolves
(AppState["last_instance_join_ts"] or the wall clock) passed as `ts`: for
every user with several open rows, keep open only the one with the latest
join_timestamp and close the others at `ts`. -/
def dedupe_open_joins (db : JoinDb) (ts : List Char) : JoinDb :=
  { db with rows := db.rows.map (fun r =>
      if dedupeCloses db r then { r with leave_timestamp := some ts }
      else r) }

/-- The `app_state` key/value table. -/
abbrev AppState : Type := List (List Char × List Char)

/-- Embedding of `db.rs::db_set_state` (INSERT OR REPLACE). -/
def db_set_state (s : AppState) (k v : List Char) : AppState :=
  List.filter (fun kv => !(kv.1 == k)) s ++ [(k, v)]

/-- Embedding of `db.rs::db_get_state`. -/
def db_get_state (s : AppState) (k : List Char) : Option (List Char) :=
  (List.find? (fun kv => kv.1 == k) s).map (fun kv => kv.2)

/-- Embedding of `db.rs::get_active_join_logs`: open player rows, filtered
by `join_timestamp >= last_instance_join_ts` when that state key is set
(the ASC ordering of the query is irrelevant to the claims and not
modelled). -/
def get_active_join_logs (db : JoinDb) (s : AppState) : List JoinRow :=
  db.rows.filter (fun r =>
    openPlayer r &&
      match db_get_state s "last_instance_join_ts".data with
      | some t => strLe t r.join_timestamp
      | none => true)

/-- State the watcher loop threads through the branches the claims are
about: the join_log database, the app_state table, and the in-memory
`last_api_call_id` dedup cell. -/
structure WatcherSt where
  db : JoinDb
  appState : AppState
  lastApiCallId : Option Nat
deriving Repr

/-- The UI events an instance-join step can fire, in order. -/
structure InstanceJoinEmits where
  dbPurged : Bool
  instanceChanged : Bool
  systemRowEmitted : Bool
deriving DecidableEq, Repr

/-- Embedding of the instance-join branch of `watcher.rs::log_watch_loop`
(the `re_joining` arm): clear `last_api_call_id`, close all open player
joins at `ts` (emitting `db_purged`), emit `instance_changed`, and insert a
system row with an `instance_changed` event kind (emitting
`db_row_inserted`).  The branch never writes to `app_state`. -/
def process_instance_join (st : WatcherSt) (ts world inst : List Char)
    (region : Option (List Char)) : WatcherSt × InstanceJoinEmits :=
  let p := db_purge_all st.db ts
  let msg := "Joining: ".data ++ world ++ " | Instance: ".data ++ inst ++
    (match region with
     | some r => " | Region: ".data ++ r
     | none => [])
  let q := db_insert_system_event p.1 ts "instance_changed".data (some msg)
    (some world) (some inst) region
  ({ db := q.1, appState := st.appState, lastApiCallId := none },
   ⟨p.2, true, q.2⟩)

/-- Embedding of the purge-trigger branch of `watcher.rs::log_watch_loop`
(session-end markers): clear `last_api_call_id` and run `db_purge_all`
with emit = true.  The Bool is whether `db_purged` fired. -/
def process_purge_marker (st : WatcherSt) (ts : List Char) :
    WatcherSt × Bool :=
  let p := db_purge_all st.db ts
  ({ db := p.1, appState := st.appState, lastApiCallId := none }, p.2)

/-- A job submitted to the enrichment queue (api_checks::Client::submit /
submit_print / submit_inventory). -/
inductive Job where
  | securityCheck (file_id : List Char) (version : Int)
  | invCheck (identifier : List Char)
deriving DecidableEq, Repr

/-- Embedding of the remote-API marker branch of
`watcher.rs::log_watch_loop`, at the level of the parsed pieces of the
line: `callId` is the parsed `[<callId>]` number (none when unparseable)
and `analysisCap` / `printsCap` / `inventoryCap` are the captures of the
three URL sub-patterns on a URL that passed the category test.  Returns
the new `last_api_call_id`, whether the dedup-gated debug message was
emitted, and the jobs submitted to the enrichment queue. -/
def process_api_marker (last : Option Nat) (callId : Option Nat)
    (analysisCap : Option (List Char × Int)) (printsCap : Option (List Char))
    (inventoryCap : Option (List Char × List Char)) :
    Option Nat × Bool × List Job :=
  let (newLast, shouldEmit) : Option Nat × Bool :=
    match callId with
    | some id => if last = some id then (last, false) else (some id, true)
    | none => (last, true)
  let jobs1 :=
    match analysisCap with
    | some (fid, ver) =>
        if fid ≠ [] ∧ 0 < ver then [Job.securityCheck fid ver] else []
    | none => []
  let jobs2 :=
    match printsCap with
    | some pid => [Job.invCheck pid]
    | none => []
  let jobs3 :=
    match inventoryCap with
    | some (uid, inv) =>
        if uid ≠ [] ∧ inv ≠ [] then [Job.invCheck (uid ++ '&' :: inv)]
        else []
    | none => []
  (newLast, shouldEmit, jobs1 ++ jobs2 ++ jobs3)

/-- Embedding of `watcher.rs::read_log_chunk` over the latest log file's
contents `file` (a byte list): clamp the start offset, read at most
`maxBytes` without crossing EOF, and report the new offset and the eof
flag `new_offset >= size`. -/
def read_log_chunk (file : List Nat) (offset maxBytes : Nat) :
    List Nat × Nat × Bool :=
  let size := file.length
  let start := min offset size
  let toRead := min maxBytes (size - start)
  let data := (file.drop start).take toRead
  let newOffset := start + data.length
  (data, newOffset, decide (size ≤ newOffset))

/-- C9: `read_log_chunk` clamps the start offset to [0, size], returns the
bytes of the file at the clamped offset, reads at most
min(max_bytes, size - offset) of them, returns new offset
start + bytes_read (never beyond the size), and reports eof exactly when
the new offset has reached the file size. -/
theorem C9_read_log_chunk (file : List Nat) (offset maxBytes : Nat) :
    (read_log_chunk file offset maxBytes).1 =
      (file.drop (min offset file.length)).take maxBytes ∧
    (read_log_chunk file offset maxBytes).1.length ≤
      min maxBytes (file.length - offset) ∧
    (read_log_chunk file offset maxBytes).2.1 =
      min offset file.length + (read_log_chunk file offset maxBytes).1.length ∧
    (read_log_chunk file offset maxBytes).2.1 ≤ file.length ∧
    ((read_log_chunk file offset maxBytes).2.2 = true ↔
      (read_log_chunk file offset maxBytes).2.1 = file.length) := by
  simp only [read_log_chunk]
  refine ⟨?_, ?_, trivial, ?_, ?_⟩
  · rw [List.take_eq_take]
    simp only [List.length_drop]
    omega
  · simp only [List.length_take, List.length_drop]
    omega
  · simp only [List.length_take, List.length_drop]
    omega
  · simp only [decide_eq_true_eq, List.length_take, List.length_drop]
    omega

/-- C3: a moderation line whose parsed timestamp lies in the half-open
30-second window starting at the recorded instance-join timestamp is
dropped: the ban database is unchanged (no ModerationRow stored), the
function returns false, and no ban_event is emitted. -/
theorem C3_mod_log_guard (st : LocationState) (db : BanDb)
    (admin actionRaw target reason timestamp jStr : List Char) (j b : Ts)
    (hj : st.instance_joined_timestamp = some jStr)
    (hpj : parseTs jStr = some j) (hpb : parseTs timestamp = some b)
    (hlo : toSecs j ≤ toSecs b) (hhi : toSecs b < toSecs j + 30) :
    parse_ban_event st db admin actionRaw target reason timestamp =
      ⟨db, false, false⟩ := by
  simp only [parse_ban_event, hj, hpj, hpb]
  rw [if_pos]
  simp only [decide_eq_true_eq]
  exact ⟨by omega, by omega⟩

theorem C3_mod_log_guard_witness :
    parse_ban_event ⟨none, none, none, some "2026.01.02 06:44:07".data⟩
        ⟨[], 1⟩ "Mod".data "banned".data "Alice".data "Rude".data
        "2026.01.02 06:44:25".data =
      ⟨⟨[], 1⟩, false, false⟩ :=
  C3_mod_log_guard _ _ _ _ _ _ _ _ ⟨2026, 1, 2, 6, 44, 7⟩
    ⟨2026, 1, 2, 6, 44, 25⟩ rfl (by decide) (by decide) (by decide)
    (by decide)

/-- C10: when the timestamp fails to parse as YYYY.MM.DD HH:MM:SS,
`add_ban_log` deduplicates by exact equality on (target, reason,
timestamp): when no such row exists a new row is inserted (empty location
becoming "N/A") and its fresh id returned; when such a row exists the
first one's id is returned and nothing is inserted. -/
theorem C10_parse_fail_fallback (db : BanDb)
    (admin target reason timestamp action location : List Char)
    (hfail : parseTs timestamp = none) :
    ((∀ r ∈ db.rows, ¬(r.target = target ∧ r.reason = reason ∧
        r.timestamp = timestamp)) →
      add_ban_log db admin target reason timestamp action location =
        ({ rows := db.rows ++ [⟨db.nextId, admin, target, reason, timestamp,
            action, if location = [] then naStr else location⟩],
           nextId := db.nextId + 1 }, db.nextId, true)) ∧
    (∀ r, db.rows.find? (fun q => q.target == target &&
        q.reason == reason && q.timestamp == timestamp) = some r →
      add_ban_log db admin target reason timestamp action location =
        (db, r.id, false)) := by
  constructor
  · intro hnone
    have hfind : db.rows.find? (fun q => q.target == target &&
        q.reason == reason && q.timestamp == timestamp) = none := by
      rw [List.find?_eq_none]
      intro r hr
      have := hnone r hr
      simp only [Bool.and_eq_true, beq_iff_eq]
      tauto
    simp only [add_ban_log, hfail, hfind]
  · intro r hr
    simp only [add_ban_log, hfail, hr]

theorem C10_parse_fail_fallback_witness :
    add_ban_log ⟨[], 5⟩ "A".data "Tgt".data "Rsn".data "bad-ts".data
        "ban".data [] =
      (⟨[⟨5, "A".data, "Tgt".data, "Rsn".data, "bad-ts".data, "ban".data,
          naStr⟩], 6⟩, 5, true) ∧
    add_ban_log ⟨[⟨5, "A".data, "Tgt".data, "Rsn".data, "bad-ts".data,
        "ban".data, naStr⟩], 6⟩ "B".data "Tgt".data "Rsn".data
        "bad-ts".data "ban".data [] =
      (⟨[⟨5, "A".data, "Tgt".data, "Rsn".data, "bad-ts".data, "ban".data,
          naStr⟩], 6⟩, 5, false) := by
  constructor
  · exact (C10_parse_fail_fallback ⟨[], 5⟩ "A".data "Tgt".data "Rsn".data
      "bad-ts".data "ban".data [] (by decide)).1 (by simp)
  · exact (C10_parse_fail_fallback
      ⟨[⟨5, "A".data, "Tgt".data, "Rsn".data, "bad-ts".data, "ban".data,
        naStr⟩], 6⟩ "B".data "Tgt".data "Rsn".data
      "bad-ts".data "ban".data [] (by decide)).2
      ⟨5, "A".data, "Tgt".data, "Rsn".data, "bad-ts".data, "ban".data,
        naStr⟩ (by decide)

lemma db_purge_all_rows (db : JoinDb) (ts : List Char) (h : ts ≠ []) :
    (db_purge_all db ts).1.rows = db.rows.map (fun r =>
      if openPlayer r then { r with leave_timestamp := some ts } else r) ∧
    (db_purge_all db ts).2 = true := by
  constructor <;> simp [db_purge_all, h]

lemma openPlayer_set_leave (r : JoinRow) (ts : List Char) :
    openPlayer { r with leave_timestamp := some ts } = false := by
  simp [openPlayer]

lemma openPlayer_after_purge (db : JoinDb) (ts : List Char) (h : ts ≠ [])
    (r : JoinRow) (hr : r ∈ (db_purge_all db ts).1.rows) :
    openPlayer r = false := by
  rw [(db_purge_all_rows db ts h).1] at hr
  obtain ⟨q, _, hq⟩ := List.mem_map.mp hr
  by_cases hop : openPlayer q = true
  · rw [if_pos hop] at hq
    rw [← hq]
    exact openPlayer_set_leave q ts
  · rw [if_neg hop] at hq
    rw [← hq]
    exact Bool.eq_false_iff.mpr hop

lemma mem_purge_of_open (db : JoinDb) (ts : List Char) (h : ts ≠ [])
    (r : JoinRow) (hr : r ∈ db.rows) (hop : openPlayer r = true) :
    { r with leave_timestamp := some ts } ∈ (db_purge_all db ts).1.rows := by
  rw [(db_purge_all_rows db ts h).1]
  exact List.mem_map.mpr ⟨r, hr, by simp [hop]⟩

lemma mem_purge_of_closed (db : JoinDb) (ts : List Char) (h : ts ≠ [])
    (r : JoinRow) (hr : r ∈ db.rows) (hop : openPlayer r = false) :
    r ∈ (db_purge_all db ts).1.rows := by
  rw [(db_purge_all_rows db ts h).1]
  exact List.mem_map.mpr ⟨r, hr, by simp [hop]⟩

lemma mem_insert_system_event (db : JoinDb) (ts kind : List Char)
    (msg w i rg : Option (List Char)) (r : JoinRow) (hr : r ∈ db.rows) :
    r ∈ (db_insert_system_event db ts kind msg w i rg).1.rows := by
  unfold db_insert_system_event
  split
  · exact hr
  · split
    · exact hr
    · exact List.mem_append_left _ hr

lemma insert_system_event_cases (db : JoinDb) (ts kind : List Char)
    (msg w i rg : Option (List Char)) (r : JoinRow)
    (hr : r ∈ (db_insert_system_event db ts kind msg w i rg).1.rows) :
    r ∈ db.rows ∨ r.is_system = true := by
  unfold db_insert_system_event at hr
  split at hr
  · exact Or.inl hr
  · split at hr
    · exact Or.inl hr
    · rcases List.mem_append.mp hr with h | h
      · exact Or.inl h
      · right
        simp only [List.mem_singleton] at h
        rw [h]

/-- C5 is refuted: two consecutive API marker lines with the same callId
and the same URL (here an avatar-analysis URL) enqueue the security check
twice; the callId dedup suppresses only the debug message of the second
marker. -/
theorem C5_counterexample :
    ((process_api_marker none (some 42) (some ("file_abc".data, 1)) none
        none).2.2 ++
      (process_api_marker
        (process_api_marker none (some 42) (some ("file_abc".data, 1)) none
          none).1 (some 42) (some ("file_abc".data, 1)) none
          none).2.2).length = 2 ∧
    (process_api_marker
      (process_api_marker none (some 42) (some ("file_abc".data, 1)) none
        none).1 (some 42) (some ("file_abc".data, 1)) none
        none).2.1 = false := by
  decide

/-- C5 (amended): the callId dedup gates only the debug message: the jobs
a marker submits to the enrichment queue do not depend on
last_api_call_id at all, and the second of two consecutive markers with
the same callId has its debug message suppressed (while submitting the
same jobs again). -/
theorem C5_amended (last1 last2 : Option Nat) (callId : Option Nat)
    (id : Nat) (a : Option (List Char × Int)) (p : Option (List Char))
    (i : Option (List Char × List Char)) :
    (process_api_marker last1 callId a p i).2.2 =
      (process_api_marker last2 callId a p i).2.2 ∧
    (process_api_marker (process_api_marker last1 (some id) a p i).1
        (some id) a p i).2.1 = false := by
  constructor
  · cases callId with
    | none => rfl
    | some c => simp only [process_api_marker]
  · have h1 : (process_api_marker last1 (some id) a p i).1 = some id := by
      simp only [process_api_marker]
      split_ifs with h
      · exact h
      · rfl
    simp only [process_api_marker] at h1 ⊢
    rw [if_pos h1]

/-- C1 is refuted: the live instance-join branch of the watcher never
writes AppState["last_instance_join_ts"]; after an instance-join line at
timestamp t the key still holds its previous value, not t. -/
theorem C1_counterexample :
    db_get_state
      (process_instance_join
        ⟨⟨[], 1⟩,
          [("last_instance_join_ts".data, "2026.01.01 00:00:00".data)],
          some 7⟩
        "2026.01.02 06:44:07".data "wrld_abc".data "12345".data
        (some "us".data)).1.appState
      "last_instance_join_ts".data ≠ some "2026.01.02 06:44:07".data := by
  decide

/-- C1 (amended): after an instance-join line at nonempty timestamp ts the
app_state table is untouched (AppState["last_instance_join_ts"] keeps its
previous value), every previously-open player row is closed at ts, and a
get_active_join_logs call right after the step returns no rows at all. -/
theorem C1_amended (st : WatcherSt) (ts world inst : List Char)
    (region : Option (List Char)) (hts : ts ≠ []) :
    (process_instance_join st ts world inst region).1.appState =
      st.appState ∧
    (∀ r ∈ st.db.rows, openPlayer r = true →
      { r with leave_timestamp := some ts } ∈
        (process_instance_join st ts world inst region).1.db.rows) ∧
    get_active_join_logs
      (process_instance_join st ts world inst region).1.db
      (process_instance_join st ts world inst region).1.appState = [] := by
  refine ⟨rfl, ?_, ?_⟩
  · intro r hr hop
    exact mem_insert_system_event _ _ _ _ _ _ _ _
      (mem_purge_of_open st.db ts hts r hr hop)
  · unfold get_active_join_logs
    rw [List.filter_eq_nil_iff]
    intro r hr
    have : openPlayer r = false := by
      rcases insert_system_event_cases _ _ _ _ _ _ _ r hr with h | h
      · exact openPlayer_after_purge st.db ts hts r h
      · simp [openPlayer, h]
    simp [this]

theorem C1_amended_witness :
    (process_instance_join
        ⟨⟨[⟨1, "usr_a".data, some "A".data, "2026.01.01 10:00:00".data,
            none, false, some "join".data, none, none, none, none⟩], 2⟩,
          [("last_instance_join_ts".data, "2026.01.01 00:00:00".data)],
          some 3⟩
        "2026.01.02 06:44:07".data "wrld_abc".data "12345".data
        (some "us".data)).1.appState =
      [("last_instance_join_ts".data, "2026.01.01 00:00:00".data)] ∧
    (∀ r ∈ [⟨1, "usr_a".data, some "A".data, "2026.01.01 10:00:00".data,
        none, false, some "join".data, none, none, none, none⟩],
      openPlayer r = true →
      ({ r with leave_timestamp := some "2026.01.02 06:44:07".data } :
          JoinRow) ∈
        (process_instance_join
          ⟨⟨[⟨1, "usr_a".data, some "A".data, "2026.01.01 10:00:00".data,
              none, false, some "join".data, none, none, none, none⟩], 2⟩,
            [("last_instance_join_ts".data, "2026.01.01 00:00:00".data)],
            some 3⟩
          "2026.01.02 06:44:07".data "wrld_abc".data "12345".data
          (some "us".data)).1.db.rows) ∧
    get_active_join_logs
      (process_instance_join
        ⟨⟨[⟨1, "usr_a".data, some "A".data, "2026.01.01 10:00:00".data,
            none, false, some "join".data, none, none, none, none⟩], 2⟩,
          [("last_instance_join_ts".data, "2026.01.01 00:00:00".data)],
          some 3⟩
        "2026.01.02 06:44:07".data "wrld_abc".data "12345".data
        (some "us".data)).1.db
      (process_instance_join
        ⟨⟨[⟨1, "usr_a".data, some "A".data, "2026.01.01 10:00:00".data,
            none, false, some "join".data, none, none, none, none⟩], 2⟩,
          [("last_instance_join_ts".data, "2026.01.01 00:00:00".data)],
          some 3⟩
        "2026.01.02 06:44:07".data "wrld_abc".data "12345".data
        (some "us".data)).1.appState = [] :=
  C1_amended _ _ _ _ _ (by decide)

/-- C7: a purge at nonempty timestamp ts (as run by the session-end
branch) keeps the row count, closes every open player row at ts, keeps
every system row and already-closed player row, leaves no open player
rows, and emits db_purged. -/
theorem C7_purge_frame (st : WatcherSt) (ts : List Char) (hts : ts ≠ []) :
    ((process_purge_marker st ts).1.db.rows.length =
      st.db.rows.length) ∧
    (∀ r ∈ st.db.rows, openPlayer r = true →
      { r with leave_timestamp := some ts } ∈
        (process_purge_marker st ts).1.db.rows) ∧
    (∀ r ∈ st.db.rows, openPlayer r = false →
      r ∈ (process_purge_marker st ts).1.db.rows) ∧
    (∀ r ∈ (process_purge_marker st ts).1.db.rows,
      openPlayer r = false) ∧
    ((process_purge_marker st ts).2 = true) := by
  have hrows : (process_purge_marker st ts).1.db.rows =
      (db_purge_all st.db ts).1.rows := rfl
  refine ⟨?_, ?_, ?_, ?_, ?_⟩
  · rw [hrows, (db_purge_all_rows st.db ts hts).1, List.length_map]
  · intro r hr hop
    rw [hrows]
    exact mem_purge_of_open st.db ts hts r hr hop
  · intro r hr hop
    rw [hrows]
    exact mem_purge_of_closed st.db ts hts r hr hop
  · intro r hr
    rw [hrows] at hr
    exact openPlayer_after_purge st.db ts hts r hr
  · exact (db_purge_all_rows st.db ts hts).2

theorem C7_purge_frame_witness :
    ((process_purge_marker
        ⟨⟨[⟨1, "usr_a".data, some "A".data, "2026.01.01 10:00:00".data,
            none, false, some "join".data, none, none, none, none⟩,
           ⟨2, "usr_b".data, some "B".data, "2026.01.01 09:00:00".data,
            some "2026.01.01 09:30:00".data, false, some "join".data,
            none, none, none, none⟩,
           ⟨3, "system".data, none, "2026.01.01 08:00:00".data, none,
            true, some "instance_changed".data, none, none, none,
            none⟩], 4⟩, [], some 9⟩
        "2026.01.01 11:00:00".data).1.db.rows.length = 3) ∧
    (∀ r ∈ [⟨1, "usr_a".data, some "A".data, "2026.01.01 10:00:00".data,
        none, false, some "join".data, none, none, none, none⟩,
       ⟨2, "usr_b".data, some "B".data, "2026.01.01 09:00:00".data,
        some "2026.01.01 09:30:00".data, false, some "join".data, none,
        none, none, none⟩,
       ⟨3, "system".data, none, "2026.01.01 08:00:00".data, none, true,
        some "instance_changed".data, none, none, none, none⟩],
      openPlayer r = true →
      ({ r with leave_timestamp := some "2026.01.01 11:00:00".data } :
          JoinRow) ∈
        (process_purge_marker
          ⟨⟨[⟨1, "usr_a".data, some "A".data, "2026.01.01 10:00:00".data,
              none, false, some "join".data, none, none, none, none⟩,
             ⟨2, "usr_b".data, some "B".data, "2026.01.01 09:00:00".data,
              some "2026.01.01 09:30:00".data, false, some "join".data,
              none, none, none, none⟩,
             ⟨3, "system".data, none, "2026.01.01 08:00:00".data, none,
              true, some "instance_changed".data, none, none, none,
              none⟩], 4⟩, [], some 9⟩
          "2026.01.01 11:00:00".data).1.db.rows) ∧
    (∀ r ∈ [⟨1, "usr_a".data, some "A".data, "2026.01.01 10:00:00".data,
        none, false, some "join".data, none, none, none, none⟩,
       ⟨2, "usr_b".data, some "B".data, "2026.01.01 09:00:00".data,
        some "2026.01.01 09:30:00".data, false, some "join".data, none,
        none, none, none⟩,
       ⟨3, "system".data, none, "2026.01.01 08:00:00".data, none, true,
        some "instance_changed".data, none, none, none, none⟩],
      openPlayer r = false →
      r ∈ (process_purge_marker
          ⟨⟨[⟨1, "usr_a".data, some "A".data, "2026.01.01 10:00:00".data,
              none, false, some "join".data, none, none, none, none⟩,
             ⟨2, "usr_b".data, some "B".data, "2026.01.01 09:00:00".data,
              some "2026.01.01 09:30:00".data, false, some "join".data,
              none, none, none, none⟩,
             ⟨3, "system".data, none, "2026.01.01 08:00:00".data, none,
              true, some "instance_changed".data, none, none, none,
              none⟩], 4⟩, [], some 9⟩
          "2026.01.01 11:00:00".data).1.db.rows) ∧
    (∀ r ∈ (process_purge_marker
        ⟨⟨[⟨1, "usr_a".data, some "A".data, "2026.01.01 10:00:00".data,
            none, false, some "join".data, none, none, none, none⟩,
           ⟨2, "usr_b".data, some "B".data, "2026.01.01 09:00:00".data,
            some "2026.01.01 09:30:00".data, false, some "join".data,
            none, none, none, none⟩,
           ⟨3, "system".data, none, "2026.01.01 08:00:00".data, none,
            true, some "instance_changed".data, none, none, none,
            none⟩], 4⟩, [], some 9⟩
        "2026.01.01 11:00:00".data).1.db.rows,
      openPlayer r = false) ∧
    ((process_purge_marker
        ⟨⟨[⟨1, "usr_a".data, some "A".data, "2026.01.01 10:00:00".data,
            none, false, some "join".data, none, none, none, none⟩,
           ⟨2, "usr_b".data, some "B".data, "2026.01.01 09:00:00".data,
            some "2026.01.01 09:30:00".data, false, some "join".data,
            none, none, none, none⟩,
           ⟨3, "system".data, none, "2026.01.01 08:00:00".data, none,
            true, some "instance_changed".data, none, none, none,
            none⟩], 4⟩, [], some 9⟩
        "2026.01.01 11:00:00".data).2 = true) :=
  C7_purge_frame _ _ (by decide)

/-- Decidable form of the location shape asserted by the claim: the
string is exactly "N/A", or splits as w ++ ":" ++ i with neither
component the literal "N/A". -/
def locShapeB (l : List Char) : Bool :=
  l == naStr ||
    (List.range l.length).any (fun k =>
      decide (l.take k ++ ':' :: l.drop (k + 1) = l) &&
        !(l.take k == naStr) && !(l.drop (k + 1) == naStr))

lemma locShape_iff (l : List Char) :
    (l = naStr ∨ ∃ w i, l = w ++ ':' :: i ∧ w ≠ naStr ∧ i ≠ naStr) ↔
      locShapeB l = true := by
  simp only [locShapeB, Bool.or_eq_true, beq_iff_eq, List.any_eq_true,
    List.mem_range, Bool.and_eq_true, Bool.not_eq_true', beq_eq_false_iff_ne,
    ne_eq, decide_eq_true_eq]
  constructor
  · rintro (h | ⟨w, i, heq, hw, hi⟩)
    · exact Or.inl h
    · subst heq
      have hd : (w ++ ':' :: i).drop (w.length + 1) = i := by
        rw [← List.drop_drop, List.drop_left]
        rfl
      refine Or.inr ⟨w.length, ?_, ⟨?_, ?_⟩, ?_⟩
      · rw [List.length_append, List.length_cons]
        omega
      · rw [List.take_left, hd]
      · rw [List.take_left]
        exact hw
      · rw [hd]
        exact hi
  · rintro (h | ⟨k, hk, ⟨heq, hw⟩, hi⟩)
    · exact Or.inl h
    · exact Or.inr ⟨l.take k, l.drop (k + 1), heq.symm, hw, hi⟩

/-- C8 is refuted: a reachable run — the join line "[Behaviour] Joining
wrld_abc: ~region(us)", whose instance capture `[^~]+` is a bare space
that trims to empty, followed by a moderation line past the 30-second
guard — stores a ModerationRow whose location is "wrld_abc:N/A", which is
neither exactly "N/A" nor "<world_id>:<instance_id>" with both components
known. -/
theorem C8_counterexample :
    ((parse_ban_event
        (parse_location_update ⟨none, none, none, none⟩
          (some ("wrld_abc".data, " ".data)) none
          "2026.01.02 06:44:07".data).1
        ⟨[], 1⟩ "Mod".data "banned".data "Alice".data "Rude".data
        "2026.01.02 09:00:00".data).db.rows.map (fun r => r.location) =
      ["wrld_abc:N/A".data]) ∧
    ¬("wrld_abc:N/A".data = naStr ∨
      ∃ w i, "wrld_abc:N/A".data = w ++ ':' :: i ∧
        w ≠ naStr ∧ i ≠ naStr) := by
  constructor
  · decide
  · rw [locShape_iff]
    decide

/-- A location-relevant event of the log stream: a location-update line
(at the level of its two regex captures and extracted timestamp), a
moderation line (at the level of its captures), a manual
`add_ban_log_entry` command call (its location is hardcoded "N/A"), or a
location-state clear. -/
inductive LogEv where
  | locLine (joinCap : Option (List Char × List Char))
      (roomCap : Option (List Char)) (lineTs : List Char)
  | modLine (admin actionRaw target reason timestamp : List Char)
  | manualEntry (admin target reason timestamp action : List Char)
  | clearLoc

/-- One step of the location / moderation-log subsystem. -/
def stepEv (s : LocationState × BanDb) (e : LogEv) :
    LocationState × BanDb :=
  match e with
  | LogEv.locLine j rc ts => ((parse_location_update s.1 j rc ts).1, s.2)
  | LogEv.modLine a act tg rs ts =>
      (s.1, (parse_ban_event s.1 s.2 a act tg rs ts).db)
  | LogEv.manualEntry a tg rs ts act =>
      (s.1, (add_ban_log s.2 a tg rs ts act naStr).1)
  | LogEv.clearLoc => (⟨none, none, none, none⟩, s.2)

/-- The subsystem run from the initial state over a list of events. -/
def runEv (evs : List LogEv) : LocationState × BanDb :=
  evs.foldl stepEv (⟨none, none, none, none⟩, ⟨[], 1⟩)

/-- State invariant: stored world and instance ids are nonempty (they are
trimmed captures filtered for nonemptiness). -/
def locStInv (st : LocationState) : Prop :=
  (∀ w, st.world_id = some w → w ≠ []) ∧
  (∀ i, st.instance_id = some i → i ≠ [])

/-- The location shape every stored ModerationRow satisfies: exactly
"N/A", or w ++ ":" ++ i with w and i nonempty. -/
def rowLocOk (r : BanRow) : Prop :=
  r.location = naStr ∨
    ∃ w i, r.location = w ++ ':' :: i ∧ w ≠ [] ∧ i ≠ []

lemma locStInv_applyJoinCap (st : LocationState)
    (j : Option (List Char × List Char)) (ts : List Char)
    (h : locStInv st) : locStInv (applyJoinCap st j ts).1 := by
  rcases j with _ | ⟨g1, g2⟩
  · exact h
  · by_cases hw : rustTrim g1 = [] <;> by_cases hi : rustTrim g2 = []
    · have he : applyJoinCap st (some (g1, g2)) ts = (st, false) := by
        simp [applyJoinCap, hw, hi]
      rw [he]
      exact h
    · have he : applyJoinCap st (some (g1, g2)) ts =
          ({ world_id := st.world_id, instance_id := some (rustTrim g2),
             room_name := st.room_name,
             instance_joined_timestamp := some ts }, true) := by
        simp [applyJoinCap, hw, hi]
      rw [he]
      refine ⟨fun x hx => h.1 x hx, fun x hx => ?_⟩
      injection hx with hx2
      rw [← hx2]
      exact hi
    · have he : applyJoinCap st (some (g1, g2)) ts =
          ({ world_id := some (rustTrim g1), instance_id := st.instance_id,
             room_name := st.room_name,
             instance_joined_timestamp := some ts }, true) := by
        simp [applyJoinCap, hw, hi]
      rw [he]
      refine ⟨fun x hx => ?_, fun x hx => h.2 x hx⟩
      injection hx with hx2
      rw [← hx2]
      exact hw
    · have he : applyJoinCap st (some (g1, g2)) ts =
          ({ world_id := some (rustTrim g1),
             instance_id := some (rustTrim g2),
             room_name := st.room_name,
             instance_joined_timestamp := some ts }, true) := by
        simp [applyJoinCap, hw, hi]
      rw [he]
      refine ⟨fun x hx => ?_, fun x hx => ?_⟩
      · injection hx with hx2
        rw [← hx2]
        exact hw
      · injection hx with hx2
        rw [← hx2]
        exact hi

lemma locStInv_applyRoomCap (st : LocationState)
    (rc : Option (List Char)) (up : Bool)
    (h : locStInv st) : locStInv (applyRoomCap st rc up).1 := by
  rcases rc with _ | g
  · exact h
  · by_cases hr : rustTrim g = []
    · have he : applyRoomCap st (some g) up = (st, up) := by
        simp [applyRoomCap, hr]
      rw [he]
      exact h
    · have he : applyRoomCap st (some g) up =
          ({ st with room_name := some (rustTrim g) }, true) := by
        simp [applyRoomCap, hr]
      rw [he]
      exact ⟨fun x hx => h.1 x hx, fun x hx => h.2 x hx⟩

lemma locStInv_update (st : LocationState)
    (j : Option (List Char × List Char)) (rc : Option (List Char))
    (ts : List Char) (h : locStInv st) :
    locStInv (parse_location_update st j rc ts).1 :=
  locStInv_applyRoomCap _ _ _ (locStInv_applyJoinCap st j ts h)

lemma get_loc_shape (st : LocationState) (h : locStInv st) :
    get_current_location_for_mod_log st = naStr ∨
    ∃ w i, get_current_location_for_mod_log st = w ++ ':' :: i ∧
      w ≠ [] ∧ i ≠ [] := by
  rcases hw : st.world_id with _ | w <;>
    rcases hi : st.instance_id with _ | i <;>
    simp only [get_current_location_for_mod_log, hw, hi]
  · exact Or.inl trivial
  · exact Or.inr ⟨naStr, i, rfl, by decide, h.2 i hi⟩
  · exact Or.inr ⟨w, naStr, rfl, h.1 w hw, by decide⟩
  · exact Or.inr ⟨w, i, rfl, h.1 w hw, h.2 i hi⟩

lemma add_ban_log_rows (db : BanDb) (a tg rs ts act loc : List Char) :
    (add_ban_log db a tg rs ts act loc).1.rows = db.rows ∨
    (add_ban_log db a tg rs ts act loc).1.rows =
      db.rows ++ [⟨db.nextId, a, tg, rs, ts, act,
        if loc = [] then naStr else loc⟩] := by
  simp only [add_ban_log]
  split
  · exact Or.inl rfl
  · exact Or.inr rfl

lemma parse_ban_event_rows (st : LocationState) (db : BanDb)
    (a act tg rs ts : List Char) (h : locStInv st) :
    ∀ r ∈ (parse_ban_event st db a act tg rs ts).db.rows,
      r ∈ db.rows ∨ rowLocOk r := by
  intro r hr
  simp only [parse_ban_event] at hr
  split at hr
  · exact Or.inl hr
  · rcases add_ban_log_rows db a tg rs ts
        (if act = "warned".data then "warn".data else "ban".data)
        (get_current_location_for_mod_log st) with he | he
    · rw [he] at hr
      exact Or.inl hr
    · rw [he] at hr
      rcases List.mem_append.mp hr with h2 | h2
      · exact Or.inl h2
      · right
        simp only [List.mem_singleton] at h2
        subst h2
        unfold rowLocOk
        rcases get_loc_shape st h with hs | ⟨w, i, hs, hw, hi⟩
        · rw [hs]
          simp only []
          rw [if_neg (by decide)]
          exact Or.inl rfl
        · rw [hs]
          simp only []
          rw [if_neg (by simp)]
          exact Or.inr ⟨w, i, rfl, hw, hi⟩

lemma runEv_inv (evs : List LogEv) (s : LocationState × BanDb)
    (hst : locStInv s.1) (hdb : ∀ r ∈ s.2.rows, rowLocOk r) :
    locStInv (evs.foldl stepEv s).1 ∧
    ∀ r ∈ (evs.foldl stepEv s).2.rows, rowLocOk r := by
  induction evs generalizing s with
  | nil => exact ⟨hst, hdb⟩
  | cons e rest ih =>
      rw [List.foldl_cons]
      apply ih
      · cases e with
        | locLine j rc ts => exact locStInv_update _ _ _ _ hst
        | modLine a act tg rs ts => exact hst
        | manualEntry a tg rs ts act => exact hst
        | clearLoc =>
            exact ⟨fun x hx => Option.noConfusion hx,
              fun x hx => Option.noConfusion hx⟩
      · cases e with
        | locLine j rc ts => exact hdb
        | modLine a act tg rs ts =>
            intro r hr
            rcases parse_ban_event_rows s.1 s.2 a act tg rs ts hst r hr
              with h2 | h2
            · exact hdb r h2
            · exact h2
        | manualEntry a tg rs ts act =>
            intro r hr
            rcases add_ban_log_rows s.2 a tg rs ts act naStr with he | he
            · rw [show (stepEv s (LogEv.manualEntry a tg rs ts act)).2 =
                  (add_ban_log s.2 a tg rs ts act naStr).1 from rfl,
                he] at hr
              exact hdb r hr
            · rw [show (stepEv s (LogEv.manualEntry a tg rs ts act)).2 =
                  (add_ban_log s.2 a tg rs ts act naStr).1 from rfl,
                he] at hr
              rcases List.mem_append.mp hr with h2 | h2
              · exact hdb r h2
              · simp only [List.mem_singleton] at h2
                subst h2
                left
                rw [show (if naStr = ([] : List Char) then naStr
                    else naStr) = naStr by rw [if_neg (by decide)]]
        | clearLoc => exact hdb

/-- C8 (amended): over any stream of location-update lines, moderation
lines, manual add_ban_log_entry calls and location clears, every stored
ModerationRow's location is either exactly "N/A" or of the form
w ++ ":" ++ i with both components nonempty (one of them may be the
filler "N/A" when only the other side of the location was known). -/
theorem C8_amended (evs : List LogEv) :
    ∀ r ∈ (runEv evs).2.rows, rowLocOk r :=
  (runEv_inv evs (⟨none, none, none, none⟩, ⟨[], 1⟩)
    ⟨fun x hx => Option.noConfusion hx, fun x hx => Option.noConfusion hx⟩
    (fun r hr => absurd hr (List.not_mem_nil r))).2

theorem C8_amended_witness :
    rowLocOk ⟨1, "Mod".data, "Alice".data, "Rude".data,
      "2026.01.02 09:00:00".data, "ban".data, naStr⟩ :=
  C8_amended [LogEv.modLine "Mod".data "banned".data "Alice".data
      "Rude".data "2026.01.02 09:00:00".data]
    ⟨1, "Mod".data, "Alice".data, "Rude".data,
      "2026.01.02 09:00:00".data, "ban".data, naStr⟩
    (by decide)

/-- C2 is refuted: three moderation lines with the same (target, reason)
at 07:00:00 / 07:00:02 / 07:00:04 — consecutive timestamps 2 s apart —
store two rows, not one (the third line's window [07:00:01, 07:00:04]
misses the stored row at 07:00:00), and the deduplicated second line
still emits ban_event. -/
theorem C2_counterexample :
    ((parse_ban_event ⟨none, none, none, none⟩
        (parse_ban_event ⟨none, none, none, none⟩
          (parse_ban_event ⟨none, none, none, none⟩ ⟨[], 1⟩
            "M1".data "banned".data "Bob".data "Spam".data
            "2026.01.02 07:00:00".data).db
          "M2".data "banned".data "Bob".data "Spam".data
          "2026.01.02 07:00:02".data).db
        "M3".data "banned".data "Bob".data "Spam".data
        "2026.01.02 07:00:04".data).db.rows.length = 2) ∧
    ((parse_ban_event ⟨none, none, none, none⟩
        (parse_ban_event ⟨none, none, none, none⟩ ⟨[], 1⟩
          "M1".data "banned".data "Bob".data "Spam".data
          "2026.01.02 07:00:00".data).db
        "M2".data "banned".data "Bob".data "Spam".data
        "2026.01.02 07:00:02".data).emitted = true) := by
  decide

lemma parse_ban_event_noGuard (st : LocationState) (db : BanDb)
    (a act tg rs ts : List Char)
    (hGuard : st.instance_joined_timestamp = none) :
    parse_ban_event st db a act tg rs ts =
      ⟨(add_ban_log db a tg rs ts
          (if act = "warned".data then "warn".data else "ban".data)
          (get_current_location_for_mod_log st)).1, true, true⟩ := by
  simp only [parse_ban_event, hGuard]
  rfl

lemma banMatchWindow_false (target reason lo hi : List Char) (r : BanRow)
    (h : ¬(r.target = target ∧ r.reason = reason)) :
    banMatchWindow target reason lo hi r = false := by
  by_cases h1 : r.target = target
  · by_cases h2 : r.reason = reason
    · exact absurd ⟨h1, h2⟩ h
    · simp [banMatchWindow, h2]
  · simp [banMatchWindow, h1]

lemma add_ban_log_inserts (db : BanDb) (a tg rs act loc : List Char)
    (t : Ts) (hv : validTs t)
    (hnone : db.rows.filter (banMatchWindow tg rs (printTs (sub3 t))
        (printTs t)) = []) :
    add_ban_log db a tg rs (printTs t) act loc =
      ({ rows := db.rows ++ [⟨db.nextId, a, tg, rs, printTs t, act,
          if loc = [] then naStr else loc⟩],
         nextId := db.nextId + 1 }, db.nextId, true) := by
  simp only [add_ban_log, parseTs_printTs hv, hnone]
  rfl

lemma add_ban_log_dedups (db : BanDb) (a tg rs act loc : List Char)
    (t : Ts) (hv : validTs t) (r0 : BanRow)
    (hone : db.rows.filter (banMatchWindow tg rs (printTs (sub3 t))
        (printTs t)) = [r0]) :
    add_ban_log db a tg rs (printTs t) act loc = (db, r0.id, false) := by
  simp only [add_ban_log, parseTs_printTs hv, hone]
  rfl

/-- C2 (amended): for two moderation lines with equal (target, reason),
valid timestamps t1 ≤ t2 within 3 seconds, processed against a database
with no row for that (target, reason) and with the join-guard off: the
first line stores exactly one new row (at the earlier timestamp t1) and
the second line stores nothing — but both lines emit ban_event: the
3-second dedup suppresses only the insert, never the emission.  (Chains
of pairwise-close lines spanning more than 3 seconds store several rows,
as the counterexample shows, so the per-pair form is the correct
general statement.) -/
theorem C2_amended (st : LocationState) (db : BanDb)
    (a1 a2 act1 act2 target reason : List Char) (t1 t2 : Ts)
    (hGuard : st.instance_joined_timestamp = none)
    (hv1 : validTs t1) (hv2 : validTs t2)
    (h12 : toSecs t1 ≤ toSecs t2) (h3 : toSecs t2 ≤ toSecs t1 + 3)
    (hsec : 3 ≤ toSecs t1)
    (hclean : ∀ r ∈ db.rows, ¬(r.target = target ∧ r.reason = reason)) :
    (∃ nrow : BanRow,
      (parse_ban_event st db a1 act1 target reason
          (printTs t1)).db.rows = db.rows ++ [nrow] ∧
      nrow.admin = a1 ∧ nrow.target = target ∧ nrow.reason = reason ∧
      nrow.timestamp = printTs t1) ∧
    (parse_ban_event st
        (parse_ban_event st db a1 act1 target reason (printTs t1)).db
        a2 act2 target reason (printTs t2)).db =
      (parse_ban_event st db a1 act1 target reason (printTs t1)).db ∧
    (parse_ban_event st db a1 act1 target reason
        (printTs t1)).emitted = true ∧
    (parse_ban_event st
        (parse_ban_event st db a1 act1 target reason (printTs t1)).db
        a2 act2 target reason (printTs t2)).emitted = true := by
  have hsec2 : 3 ≤ toSecs t2 := le_trans hsec h12
  obtain ⟨hsub_eq, hsub_valid⟩ := sub3_correct hv2 hsec2
  have hred1 := parse_ban_event_noGuard st db a1 act1 target reason
    (printTs t1) hGuard
  have hfilter1 : ∀ lo hi : List Char,
      db.rows.filter (banMatchWindow target reason lo hi) = [] := by
    intro lo hi
    refine List.filter_eq_nil_iff.mpr (fun r hr => ?_)
    rw [banMatchWindow_false target reason lo hi r (hclean r hr)]
    exact Bool.false_ne_true
  have hins := add_ban_log_inserts db a1 target reason
    (if act1 = "warned".data then "warn".data else "ban".data)
    (get_current_location_for_mod_log st) t1 hv1 (hfilter1 _ _)
  have hrows1 : (parse_ban_event st db a1 act1 target reason
      (printTs t1)).db.rows = db.rows ++
      [⟨db.nextId, a1, target, reason, printTs t1,
        if act1 = "warned".data then "warn".data else "ban".data,
        if get_current_location_for_mod_log st = [] then naStr
        else get_current_location_for_mod_log st⟩] := by
    rw [hred1]
    dsimp only
    rw [hins]
  have hmatch : banMatchWindow target reason (printTs (sub3 t2))
      (printTs t2)
      ⟨db.nextId, a1, target, reason, printTs t1,
        if act1 = "warned".data then "warn".data else "ban".data,
        if get_current_location_for_mod_log st = [] then naStr
        else get_current_location_for_mod_log st⟩ = true := by
    unfold banMatchWindow
    dsimp only
    rw [beq_self_eq_true, beq_self_eq_true,
      (strLe_printTs_iff hsub_valid hv1).mpr (by omega),
      (strLe_printTs_iff hv1 hv2).mpr h12]
    rfl
  have hfilter2 : ((parse_ban_event st db a1 act1 target reason
      (printTs t1)).db.rows).filter (banMatchWindow target reason
        (printTs (sub3 t2)) (printTs t2)) =
      [⟨db.nextId, a1, target, reason, printTs t1,
        if act1 = "warned".data then "warn".data else "ban".data,
        if get_current_location_for_mod_log st = [] then naStr
        else get_current_location_for_mod_log st⟩] := by
    rw [hrows1, List.filter_append, hfilter1, List.nil_append]
    simp [hmatch]
  have hded := add_ban_log_dedups
    (parse_ban_event st db a1 act1 target reason (printTs t1)).db
    a2 target reason
    (if act2 = "warned".data then "warn".data else "ban".data)
    (get_current_location_for_mod_log st) t2 hv2 _ hfilter2
  have hred2 := parse_ban_event_noGuard st
    (parse_ban_event st db a1 act1 target reason (printTs t1)).db
    a2 act2 target reason (printTs t2) hGuard
  refine ⟨⟨_, hrows1, rfl, rfl, rfl, rfl⟩, ?_, ?_, ?_⟩
  · rw [hred2]
    dsimp only
    rw [hded]
  · rw [hred1]
  · rw [hred2]

theorem C2_amended_witness :
    (∃ nrow : BanRow,
      (parse_ban_event ⟨none, none, none, none⟩ ⟨[], 1⟩ "M1".data
          "banned".data "Bob".data "Spam".data
          (printTs ⟨2026, 1, 2, 7, 0, 0⟩)).db.rows = [] ++ [nrow] ∧
      nrow.admin = "M1".data ∧ nrow.target = "Bob".data ∧
      nrow.reason = "Spam".data ∧
      nrow.timestamp = printTs ⟨2026, 1, 2, 7, 0, 0⟩) ∧
    (parse_ban_event ⟨none, none, none, none⟩
        (parse_ban_event ⟨none, none, none, none⟩ ⟨[], 1⟩ "M1".data
          "banned".data "Bob".data "Spam".data
          (printTs ⟨2026, 1, 2, 7, 0, 0⟩)).db
        "M2".data "banned".data "Bob".data "Spam".data
        (printTs ⟨2026, 1, 2, 7, 0, 2⟩)).db =
      (parse_ban_event ⟨none, none, none, none⟩ ⟨[], 1⟩ "M1".data
        "banned".data "Bob".data "Spam".data
        (printTs ⟨2026, 1, 2, 7, 0, 0⟩)).db ∧
    (parse_ban_event ⟨none, none, none, none⟩ ⟨[], 1⟩ "M1".data
        "banned".data "Bob".data "Spam".data
        (printTs ⟨2026, 1, 2, 7, 0, 0⟩)).emitted = true ∧
    (parse_ban_event ⟨none, none, none, none⟩
        (parse_ban_event ⟨none, none, none, none⟩ ⟨[], 1⟩ "M1".data
          "banned".data "Bob".data "Spam".data
          (printTs ⟨2026, 1, 2, 7, 0, 0⟩)).db
        "M2".data "banned".data "Bob".data "Spam".data
        (printTs ⟨2026, 1, 2, 7, 0, 2⟩)).emitted = true :=
  C2_amended ⟨none, none, none, none⟩ ⟨[], 1⟩ "M1".data "M2".data
    "banned".data "banned".data "Bob".data "Spam".data
    ⟨2026, 1, 2, 7, 0, 0⟩ ⟨2026, 1, 2, 7, 0, 2⟩ rfl (by decide)
    (by decide) (by decide) (by decide) (by decide)
    (fun r hr => absurd hr (List.not_mem_nil r))

/-- A join/leave/purge/dedupe operation of the join_log state machine,
with the timestamp each operation resolves. -/
inductive JoinOp where
  | insertJoin (ts uid uname : List Char)
  | updateLeave (ts uid : List Char)
  | purgeAll (ts : List Char)
  | dedupe (ts : List Char)

/-- The timestamp an operation carries. -/
def opTs : JoinOp → List Char
  | JoinOp.insertJoin ts _ _ => ts
  | JoinOp.updateLeave ts _ => ts
  | JoinOp.purgeAll ts => ts
  | JoinOp.dedupe ts => ts

/-- Apply one operation to the join_log database. -/
def applyOp (db : JoinDb) (op : JoinOp) : JoinDb :=
  match op with
  | JoinOp.insertJoin ts uid un => (db_insert_join db ts uid un).1
  | JoinOp.updateLeave ts uid => (db_update_leave db ts uid).1
  | JoinOp.purgeAll ts => (db_purge_all db ts).1
  | JoinOp.dedupe ts => dedupe_open_joins db ts

/-- Run a stream of operations from the empty database. -/
def runOps (ops : List JoinOp) : JoinDb :=
  ops.foldl applyOp ⟨[], 1⟩

/-- C4 is refuted: two join lines for the same user at different
timestamps (with no leave in between) leave the user with two open
player rows. -/
theorem C4_counterexample :
    1 < ((runOps
      [JoinOp.insertJoin "2026.01.01 10:00:00".data "usr_a".data "A".data,
       JoinOp.insertJoin "2026.01.01 10:00:05".data "usr_a".data
         "A".data]).rows.filter (fun r => r.user_id == "usr_a".data &&
           openPlayer r)).length := by
  decide

lemma strLe_refl (s : List Char) : strLe s s = true := by
  induction s with
  | nil => rfl
  | cons a as ih => simp [strLe, ih]

lemma strLe_trans {a b c : List Char} (h1 : strLe a b = true)
    (h2 : strLe b c = true) : strLe a c = true := by
  induction a generalizing b c with
  | nil => rfl
  | cons x xs ih =>
      cases b with
      | nil => simp [strLe] at h1
      | cons y ys =>
          cases c with
          | nil => simp [strLe] at h2
          | cons z zs =>
              simp only [strLe, Bool.or_eq_true, Bool.and_eq_true,
                decide_eq_true_eq, beq_iff_eq] at h1 h2 ⊢
              rcases h1 with h1 | ⟨he1, h1⟩
              · rcases h2 with h2 | ⟨he2, h2⟩
                · exact Or.inl (lt_trans h1 h2)
                · exact Or.inl (by omega)
              · rcases h2 with h2 | ⟨he2, h2⟩
                · exact Or.inl (by omega)
                · exact Or.inr ⟨he1.trans he2, ih h1 h2⟩

/-- Uniqueness of ids: rows in insertion order have pairwise-distinct ids
bounded by the AUTOINCREMENT counter. -/
def idInv (db : JoinDb) : Prop :=
  (∀ r ∈ db.rows, r.id < db.nextId) ∧
  db.rows.Pairwise (fun a b => a.id ≠ b.id)

lemma id_unique {l : List JoinRow}
    (hp : l.Pairwise (fun a b => a.id ≠ b.id))
    {r s : JoinRow} (hr : r ∈ l) (hs : s ∈ l) (hid : r.id = s.id) :
    r = s := by
  induction l with
  | nil => cases hr
  | cons a l ih =>
      obtain ⟨ha, hl⟩ := List.pairwise_cons.mp hp
      rcases List.mem_cons.mp hr with h1 | h1 <;>
        rcases List.mem_cons.mp hs with h2 | h2
      · rw [h1, h2]
      · exact absurd hid (h1 ▸ ha s h2)
      · exact absurd hid.symm (h2 ▸ ha r h1)
      · exact ih hl h1 h2

lemma maxByJoinTs_mem : ∀ {l : List JoinRow} {m : JoinRow},
    maxByJoinTs l = some m → m ∈ l := by
  intro l
  induction l with
  | nil => intro m h; cases h
  | cons r rs ih =>
      intro m h
      unfold maxByJoinTs at h
      cases hm : maxByJoinTs rs with
      | none =>
          rw [hm] at h
          cases h
          exact List.mem_cons_self r rs
      | some r2 =>
          rw [hm] at h
          dsimp only at h
          split at h
          · injection h with h
            rw [← h]
            exact List.mem_cons_of_mem r (ih hm)
          · injection h with h
            rw [← h]
            exact List.mem_cons_self r rs

lemma maxByJoinTs_cons_some (a : JoinRow) (l : List JoinRow) :
    ∃ m, maxByJoinTs (a :: l) = some m := by
  cases hm : maxByJoinTs l with
  | none => exact ⟨a, by unfold maxByJoinTs; rw [hm]⟩
  | some r2 =>
      by_cases h : strLt a.join_timestamp r2.join_timestamp = true
      · refine ⟨r2, ?_⟩
        unfold maxByJoinTs
        rw [hm]
        dsimp only
        rw [if_pos h]
      · refine ⟨a, ?_⟩
        unfold maxByJoinTs
        rw [hm]
        dsimp only
        rw [if_neg h]

lemma db_insert_join_cases (db : JoinDb) (ts uid un : List Char) :
    (db_insert_join db ts uid un).1 = db ∨
    ((db_insert_join db ts uid un).1 =
      { rows := db.rows ++ [⟨db.nextId, uid, some un, ts, none, false,
          some "join".data, none, none, none, none⟩],
        nextId := db.nextId + 1 } ∧ ts ≠ []) := by
  unfold db_insert_join
  split_ifs with h1 h2
  · exact Or.inl rfl
  · exact Or.inl rfl
  · exact Or.inr ⟨rfl, fun hh => h1 (Or.inl hh)⟩

lemma db_update_leave_cases (db : JoinDb) (ts uid : List Char) :
    (db_update_leave db ts uid).1 = db ∨
    (∃ r0, maxByJoinTs (db.rows.filter (fun r => r.user_id == uid &&
        openPlayer r)) = some r0 ∧ openPlayer r0 = true ∧
      r0 ∈ db.rows ∧
      (db_update_leave db ts uid).1 =
        { db with rows := db.rows.map (fun r =>
            if r.id = r0.id then { r with leave_timestamp := some ts }
            else r) } ∧ ts ≠ []) := by
  unfold db_update_leave
  split_ifs with h1
  · exact Or.inl rfl
  · cases hm : maxByJoinTs (db.rows.filter (fun r =>
        r.user_id == uid && openPlayer r)) with
    | none => exact Or.inl rfl
    | some r0 =>
        have hmem := maxByJoinTs_mem hm
        have hfl := List.mem_filter.mp hmem
        exact Or.inr ⟨r0, rfl, (Bool.and_eq_true _ _).mp hfl.2 |>.2,
          hfl.1, rfl, fun hh => h1 (Or.inl hh)⟩

lemma db_purge_all_cases (db : JoinDb) (ts : List Char) :
    (db_purge_all db ts).1 = db ∨
    ((db_purge_all db ts).1 = { db with rows := db.rows.map (fun r =>
        if openPlayer r then { r with leave_timestamp := some ts }
        else r) } ∧ ts ≠ []) := by
  unfold db_purge_all
  split_ifs with h1
  · exact Or.inl rfl
  · exact Or.inr ⟨rfl, h1⟩

lemma idInv_map (db : JoinDb) (f : JoinRow → JoinRow)
    (hf : ∀ r, (f r).id = r.id) (h : idInv db) :
    idInv { db with rows := db.rows.map f } := by
  constructor
  · intro r hr
    obtain ⟨q, hq, rfl⟩ := List.mem_map.mp hr
    rw [hf q]
    exact h.1 q hq
  · rw [List.pairwise_map]
    refine h.2.imp ?_
    intro a b hab
    rw [hf a, hf b]
    exact hab

lemma idInv_applyOp (db : JoinDb) (op : JoinOp) (h : idInv db) :
    idInv (applyOp db op) := by
  cases op with
  | insertJoin ts uid un =>
      rcases db_insert_join_cases db ts uid un with he | ⟨he, _⟩
      · rw [show applyOp db (JoinOp.insertJoin ts uid un) =
            (db_insert_join db ts uid un).1 from rfl, he]
        exact h
      · rw [show applyOp db (JoinOp.insertJoin ts uid un) =
            (db_insert_join db ts uid un).1 from rfl, he]
        constructor
        · intro r hr
          rcases List.mem_append.mp hr with h2 | h2
          · exact Nat.lt_succ_of_lt (h.1 r h2)
          · simp only [List.mem_singleton] at h2
            rw [h2]
            exact Nat.lt_succ_self _
        · rw [List.pairwise_append]
          refine ⟨h.2, List.pairwise_singleton _ _, ?_⟩
          intro a ha b hb
          simp only [List.mem_singleton] at hb
          rw [hb]
          exact Nat.ne_of_lt (h.1 a ha)
  | updateLeave ts uid =>
      rcases db_update_leave_cases db ts uid with he | ⟨r0, _, _, _, he, _⟩
      · rw [show applyOp db (JoinOp.updateLeave ts uid) =
            (db_update_leave db ts uid).1 from rfl, he]
        exact h
      · rw [show applyOp db (JoinOp.updateLeave ts uid) =
            (db_update_leave db ts uid).1 from rfl, he]
        refine idInv_map db _ (fun r => ?_) h
        by_cases hc : r.id = r0.id <;> simp [hc]
  | purgeAll ts =>
      rcases db_purge_all_cases db ts with he | ⟨he, _⟩
      · rw [show applyOp db (JoinOp.purgeAll ts) =
            (db_purge_all db ts).1 from rfl, he]
        exact h
      · rw [show applyOp db (JoinOp.purgeAll ts) =
            (db_purge_all db ts).1 from rfl, he]
        refine idInv_map db _ (fun r => ?_) h
        by_cases hc : openPlayer r = true <;> simp [hc]
  | dedupe ts =>
      refine idInv_map db _ (fun r => ?_) h
      by_cases hc : dedupeCloses db r = true <;> simp [hc]

lemma idInv_runOps (ops : List JoinOp) : idInv (runOps ops) := by
  have main : ∀ db, idInv db → idInv (ops.foldl applyOp db) := by
    induction ops with
    | nil => exact fun db h => h
    | cons op rest ih =>
        intro db h
        rw [List.foldl_cons]
        exact ih (applyOp db op) (idInv_applyOp db op h)
  exact main ⟨[], 1⟩ ⟨fun r hr => absurd hr (List.not_mem_nil r),
    List.Pairwise.nil⟩

/-- Every closed row leaves no earlier than it joined (string-wise). -/
def rowsOrdered (db : JoinDb) : Prop :=
  ∀ r ∈ db.rows, ∀ lv, r.leave_timestamp = some lv →
    strLe r.join_timestamp lv = true

/-- Every open row joined no later than each upcoming operation. -/
def openBounded (db : JoinDb) (ops : List JoinOp) : Prop :=
  ∀ r ∈ db.rows, r.leave_timestamp = none →
    ∀ op ∈ ops, strLe r.join_timestamp (opTs op) = true

lemma applyOp_step (db : JoinDb) (op : JoinOp) (rest : List JoinOp)
    (hid : idInv db) (hord : rowsOrdered db)
    (hopen : openBounded db (op :: rest))
    (hhead : ∀ b ∈ rest, strLe (opTs op) (opTs b) = true) :
    rowsOrdered (applyOp db op) ∧ openBounded (applyOp db op) rest := by
  cases op with
  | insertJoin ts uid un =>
      have hred : applyOp db (JoinOp.insertJoin ts uid un) =
        (db_insert_join db ts uid un).1 := rfl
      rcases db_insert_join_cases db ts uid un with he | ⟨he, hts⟩
      · rw [hred, he]
        exact ⟨hord, fun r hr hn op' hop' =>
          hopen r hr hn op' (List.mem_cons_of_mem _ hop')⟩
      · rw [hred, he]
        constructor
        · intro r hr lv hlv
          rcases List.mem_append.mp hr with h2 | h2
          · exact hord r h2 lv hlv
          · simp only [List.mem_singleton] at h2
            rw [h2] at hlv
            exact Option.noConfusion hlv
        · intro r hr hn op' hop'
          rcases List.mem_append.mp hr with h2 | h2
          · exact hopen r h2 hn op' (List.mem_cons_of_mem _ hop')
          · simp only [List.mem_singleton] at h2
            rw [h2]
            exact hhead op' hop'
  | updateLeave ts uid =>
      have hred : applyOp db (JoinOp.updateLeave ts uid) =
        (db_update_leave db ts uid).1 := rfl
      rcases db_update_leave_cases db ts uid with he |
        ⟨r0, hm, hop0, hmem0, he, hts⟩
      · rw [hred, he]
        exact ⟨hord, fun r hr hn op' hop' =>
          hopen r hr hn op' (List.mem_cons_of_mem _ hop')⟩
      · rw [hred, he]
        have hn0 : r0.leave_timestamp = none := by
          unfold openPlayer at hop0
          simp only [Bool.and_eq_true, Option.isNone_iff_eq_none] at hop0
          exact hop0.1
        have hj0 : strLe r0.join_timestamp ts = true :=
          hopen r0 hmem0 hn0 (JoinOp.updateLeave ts uid)
            (List.mem_cons_self _ _)
        constructor
        · intro r hr lv hlv
          obtain ⟨q, hq, hfq⟩ := List.mem_map.mp hr
          by_cases hc : q.id = r0.id
          · have hq0 : q = r0 := id_unique hid.2 hq hmem0 hc
            rw [if_pos hc] at hfq
            rw [← hfq] at hlv ⊢
            injection hlv with hlv
            rw [← hlv, hq0]
            exact hj0
          · rw [if_neg hc] at hfq
            rw [← hfq] at hlv ⊢
            exact hord q hq lv hlv
        · intro r hr hn op' hop'
          obtain ⟨q, hq, hfq⟩ := List.mem_map.mp hr
          by_cases hc : q.id = r0.id
          · rw [if_pos hc] at hfq
            rw [← hfq] at hn
            exact Option.noConfusion hn
          · rw [if_neg hc] at hfq
            rw [← hfq] at hn ⊢
            exact hopen q hq hn op' (List.mem_cons_of_mem _ hop')
  | purgeAll ts =>
      have hred : applyOp db (JoinOp.purgeAll ts) =
        (db_purge_all db ts).1 := rfl
      rcases db_purge_all_cases db ts with he | ⟨he, hts⟩
      · rw [hred, he]
        exact ⟨hord, fun r hr hn op' hop' =>
          hopen r hr hn op' (List.mem_cons_of_mem _ hop')⟩
      · rw [hred, he]
        constructor
        · intro r hr lv hlv
          obtain ⟨q, hq, hfq⟩ := List.mem_map.mp hr
          by_cases hc : openPlayer q = true
          · have hnq : q.leave_timestamp = none := by
              unfold openPlayer at hc
              simp only [Bool.and_eq_true, Option.isNone_iff_eq_none] at hc
              exact hc.1
            rw [if_pos hc] at hfq
            rw [← hfq] at hlv ⊢
            injection hlv with hlv
            rw [← hlv]
            exact hopen q hq hnq (JoinOp.purgeAll ts)
              (List.mem_cons_self _ _)
          · rw [if_neg hc] at hfq
            rw [← hfq] at hlv ⊢
            exact hord q hq lv hlv
        · intro r hr hn op' hop'
          obtain ⟨q, hq, hfq⟩ := List.mem_map.mp hr
          by_cases hc : openPlayer q = true
          · rw [if_pos hc] at hfq
            rw [← hfq] at hn
            exact Option.noConfusion hn
          · rw [if_neg hc] at hfq
            rw [← hfq] at hn ⊢
            exact hopen q hq hn op' (List.mem_cons_of_mem _ hop')
  | dedupe ts =>
      have hred : applyOp db (JoinOp.dedupe ts) =
        dedupe_open_joins db ts := rfl
      rw [hred]
      constructor
      · intro r hr lv hlv
        obtain ⟨q, hq, hfq⟩ := List.mem_map.mp hr
        by_cases hc : dedupeCloses db q = true
        · have hnq : q.leave_timestamp = none := by
            simp only [dedupeCloses, Bool.and_eq_true] at hc
            have hq1 := hc.1.1
            unfold openPlayer at hq1
            simp only [Bool.and_eq_true, Option.isNone_iff_eq_none] at hq1
            exact hq1.1
          rw [if_pos hc] at hfq
          rw [← hfq] at hlv ⊢
          injection hlv with hlv
          rw [← hlv]
          exact hopen q hq hnq (JoinOp.dedupe ts) (List.mem_cons_self _ _)
        · rw [if_neg hc] at hfq
          rw [← hfq] at hlv ⊢
          exact hord q hq lv hlv
      · intro r hr hn op' hop'
        obtain ⟨q, hq, hfq⟩ := List.mem_map.mp hr
        by_cases hc : dedupeCloses db q = true
        · rw [if_pos hc] at hfq
          rw [← hfq] at hn
          exact Option.noConfusion hn
        · rw [if_neg hc] at hfq
          rw [← hfq] at hn ⊢
          exact hopen q hq hn op' (List.mem_cons_of_mem _ hop')

lemma runOps_ordered_aux (ops : List JoinOp) (db : JoinDb)
    (hid : idInv db) (hord : rowsOrdered db) (hopen : openBounded db ops)
    (hsort : ops.Pairwise (fun a b => strLe (opTs a) (opTs b) = true)) :
    rowsOrdered (ops.foldl applyOp db) := by
  induction ops generalizing db with
  | nil => exact hord
  | cons op rest ih =>
      rw [List.foldl_cons]
      obtain ⟨hhead, hrest⟩ := List.pairwise_cons.mp hsort
      obtain ⟨h1, h2⟩ := applyOp_step db op rest hid hord hopen hhead
      exact ih (applyOp db op) (idInv_applyOp db op hid) h1 h2 hrest

lemma filter_map_len {α : Type} (f : α → α) (p : α → Bool) (l : List α) :
    (l.map f).filter p = (l.filter (fun x => p (f x))).map f := by
  induction l with
  | nil => rfl
  | cons a l ih =>
      rw [List.map_cons, List.filter_cons, List.filter_cons]
      by_cases h : p (f a) = true
      · rw [if_pos h, if_pos h, List.map_cons, ih]
      · rw [if_neg h, if_neg h, ih]

lemma filter_and_comm {α : Type} (A B : α → Bool) (l : List α) :
    l.filter (fun x => A x && B x) = (l.filter B).filter A := by
  induction l with
  | nil => rfl
  | cons a l ih =>
      rw [List.filter_cons, List.filter_cons]
      by_cases hA : A a = true <;> by_cases hB : B a = true
      · rw [if_pos (Bool.and_eq_true _ _ |>.mpr ⟨hA, hB⟩), if_pos hB,
          List.filter_cons, if_pos hA, ih]
      · rw [if_neg (fun hh => hB (Bool.and_eq_true _ _ |>.mp hh).2),
          if_neg hB, ih]
      · rw [if_pos hB, if_neg (fun hh => hA (Bool.and_eq_true _ _ |>.mp
            hh).1), List.filter_cons, if_neg hA, ih]
      · rw [if_neg (fun hh => hA (Bool.and_eq_true _ _ |>.mp hh).1),
          if_neg hB, ih]

lemma filter_congr_mem {α : Type} (p q : α → Bool) (l : List α)
    (h : ∀ x ∈ l, p x = q x) : l.filter p = l.filter q := by
  induction l with
  | nil => rfl
  | cons a l ih =>
      simp only [List.filter_cons, h a (List.mem_cons_self a l)]
      rw [ih (fun x hx => h x (List.mem_cons_of_mem a hx))]

lemma count_id_le_one (l : List JoinRow)
    (hp : l.Pairwise (fun a b => a.id ≠ b.id)) (v : Nat) :
    (l.filter (fun r => r.id == v)).length ≤ 1 := by
  induction l with
  | nil => exact Nat.zero_le 1
  | cons a l ih =>
      obtain ⟨ha, hl⟩ := List.pairwise_cons.mp hp
      by_cases h : a.id = v
      · have hnil : l.filter (fun r => r.id == v) = [] := by
          refine List.filter_eq_nil_iff.mpr (fun x hx hc => ?_)
          rw [beq_iff_eq] at hc
          exact (ha x hx) (h.trans hc.symm)
        rw [List.filter_cons, if_pos (by rw [beq_iff_eq]; exact h), hnil]
        exact Nat.le_refl 1
      · rw [List.filter_cons, if_neg (by rw [beq_iff_eq]; exact h)]
        exact ih hl

lemma dedupe_open_bound (db : JoinDb)
    (hp : db.rows.Pairwise (fun a b => a.id ≠ b.id)) (ts uid : List Char) :
    ((dedupe_open_joins db ts).rows.filter
      (fun r => r.user_id == uid && openPlayer r)).length ≤ 1 := by
  have hrows : (dedupe_open_joins db ts).rows = db.rows.map (fun r =>
      if dedupeCloses db r then { r with leave_timestamp := some ts }
      else r) := rfl
  have hpt : ∀ q ∈ db.rows,
      ((fun r => r.user_id == uid && openPlayer r)
        ((fun r => if dedupeCloses db r then
            { r with leave_timestamp := some ts } else r) q)) =
      (!(dedupeCloses db q) && (q.user_id == uid && openPlayer q)) := by
    intro q hq
    by_cases hc : dedupeCloses db q = true
    · simp only [hc, Bool.not_true, Bool.false_and, if_true]
      simp [openPlayer]
    · simp only [Bool.not_eq_true] at hc
      simp only [hc, Bool.not_false, Bool.true_and, Bool.false_eq_true,
        if_false]
  rw [hrows, filter_map_len, List.length_map,
    filter_congr_mem _ _ _ hpt, filter_and_comm]
  by_cases hlen :
      1 < (db.rows.filter (fun q => q.user_id == uid &&
        openPlayer q)).length
  · obtain ⟨a, l, hal⟩ : ∃ a l, db.rows.filter (fun q =>
        q.user_id == uid && openPlayer q) = a :: l := by
      cases ho : db.rows.filter (fun q => q.user_id == uid &&
          openPlayer q) with
      | nil => rw [ho] at hlen; simp at hlen
      | cons a l => exact ⟨a, l, rfl⟩
    obtain ⟨m, hmax⟩ := maxByJoinTs_cons_some a l
    have hmax2 : maxByJoinTs (db.rows.filter (fun q =>
        q.user_id == uid && openPlayer q)) = some m := by
      rw [hal]
      exact hmax
    have hpo : (db.rows.filter (fun q => q.user_id == uid &&
        openPlayer q)).Pairwise (fun a b => a.id ≠ b.id) :=
      List.Pairwise.sublist (List.filter_sublist db.rows) hp
    have hdec : decide (1 < (db.rows.filter (fun q =>
        q.user_id == uid && openPlayer q)).length) = true :=
      decide_eq_true hlen
    have hpt2 : ∀ r ∈ db.rows.filter (fun q => q.user_id == uid &&
        openPlayer q), (!(dedupeCloses db r)) = (r.id == m.id) := by
      intro r hr
      obtain ⟨hrmem, hrp⟩ := List.mem_filter.mp hr
      obtain ⟨hru, hro⟩ := (Bool.and_eq_true _ _).mp hrp
      have hueq : r.user_id = uid := by rwa [beq_iff_eq] at hru
      have hfilters : db.rows.filter (fun q => q.user_id == r.user_id &&
          openPlayer q) = db.rows.filter (fun q => q.user_id == uid &&
          openPlayer q) :=
        filter_congr_mem _ _ _ (fun x hx => by rw [hueq])
      simp only [dedupeCloses, hfilters, hmax2, hro, hdec, Bool.true_and,
        Bool.and_true]
      simp [bne]
    rw [filter_congr_mem _ _ _ hpt2]
    exact count_id_le_one _ hpo m.id
  · calc ((db.rows.filter (fun q => q.user_id == uid &&
          openPlayer q)).filter (fun r => !(dedupeCloses db r))).length ≤
        (db.rows.filter (fun q => q.user_id == uid &&
          openPlayer q)).length := List.length_filter_le _ _
      _ ≤ 1 := by omega

/-- C4 (amended): over any operation stream with nondecreasing
timestamps, every closed row of the resulting database satisfies
left_at >= joined_at under byte-wise string comparison; and after the
repair pass dedupe_open_joins, every user has at most one open player
row.  (Without the repair pass the per-user open-row bound fails, as the
counterexample's double join shows.) -/
theorem C4_amended (ops : List JoinOp) (ts uid : List Char)
    (hsort : ops.Pairwise (fun a b => strLe (opTs a) (opTs b) = true)) :
    (∀ r ∈ (runOps ops).rows, ∀ lv, r.leave_timestamp = some lv →
      strLe r.join_timestamp lv = true) ∧
    ((dedupe_open_joins (runOps ops) ts).rows.filter
      (fun r => r.user_id == uid && openPlayer r)).length ≤ 1 := by
  constructor
  · exact runOps_ordered_aux ops ⟨[], 1⟩
      ⟨fun r hr => absurd hr (List.not_mem_nil r), List.Pairwise.nil⟩
      (fun r hr => absurd hr (List.not_mem_nil r))
      (fun r hr => absurd hr (List.not_mem_nil r)) hsort
  · exact dedupe_open_bound (runOps ops) (idInv_runOps ops).2 ts uid

theorem C4_amended_witness :
    (∀ r ∈ (runOps
      [JoinOp.insertJoin "2026.01.01 10:00:00".data "usr_a".data "A".data,
       JoinOp.insertJoin "2026.01.01 10:00:05".data "usr_a".data "A".data,
       JoinOp.updateLeave "2026.01.01 11:00:00".data "usr_a".data]).rows,
      ∀ lv, r.leave_timestamp = some lv →
        strLe r.join_timestamp lv = true) ∧
    ((dedupe_open_joins (runOps
      [JoinOp.insertJoin "2026.01.01 10:00:00".data "usr_a".data "A".data,
       JoinOp.insertJoin "2026.01.01 10:00:05".data "usr_a".data "A".data,
       JoinOp.updateLeave "2026.01.01 11:00:00".data "usr_a".data])
        "2026.01.01 12:00:00".data).rows.filter
      (fun r => r.user_id == "usr_a".data && openPlayer r)).length ≤ 1 :=
  C4_amended
    [JoinOp.insertJoin "2026.01.01 10:00:00".data "usr_a".data "A".data,
     JoinOp.insertJoin "2026.01.01 10:00:05".data "usr_a".data "A".data,
     JoinOp.updateLeave "2026.01.01 11:00:00".data "usr_a".data]
    "2026.01.01 12:00:00".data "usr_a".data (by decide)

end FCH
